import Mathlib

/-!
# Square matrix operators: a shallow embedding of `SquareMat`

The C++ class `matrix_ops::SquareMat` (files `include/SquareMat.hpp` and
`src/SquareMat.cpp`) is embedded as follows.

* `double` elements are rationals: arithmetic on elements is exact.
* `double** matrix` is a list of rows, each row a list of elements; a raw
  read `matrix[i][j]` is `get2` and a raw write `matrix[i][j] = v` is `set2`.
* `int size` is stored as a natural number (the constructor rejects every
  `size <= 0`), while the `int` arguments of the public interface are integers.
* `throw` is a value of `Except Error`.
* `for (int i = 0; i < n; ++i) body` is `forLoop n body`, a left fold of the
  body over `0, 1, ..., n-1` threading the mutated storage.
* The `while` loop of `operator^` takes a bound `fuel` on its number of passes and
  returns `none` when the bound is reached first; that it ends is a theorem.
* The `int` arithmetic of `modulo` is reduced to 32 bits by `wrapInt32`.
* A compound assignment is followed as a call on the receiver (`InPlace`): the
  state of the receiver when the call ends, and the exception thrown, if any.
-/

namespace matrix_ops

/-- The exception classes thrown by the class: `std::length_error`,
`std::out_of_range` and `std::invalid_argument`. -/
inductive Error where
  | length_error
  | out_of_range
  | invalid_argument
  deriving DecidableEq, Repr

/-- A computation that either throws or returns. -/
abbrev Result (α : Type) := Except Error α

/-- The loop `for (int i = 0; i < n; ++i) body(i)` acting on a state. -/
def forLoop {σ : Type} (n : Nat) (body : Nat → σ → σ) (s : σ) : σ :=
  (List.range n).foldl (fun acc i => body i acc) s

/-- Storage reached through a `double**`: a list of rows. -/
abbrev Grid := List (List ℚ)

/-- The raw read `matrix[i][j]`. The default value is returned only outside the
allocated storage, where the C++ read is undefined. -/
def get2 (g : Grid) (i j : Nat) : ℚ :=
  (g.getD i []).getD j 0

/-- The raw write `matrix[i][j] = v`. -/
def set2 (g : Grid) (i j : Nat) (v : ℚ) : Grid :=
  g.set i ((g.getD i []).set j v)

/-- The contents of a cell of freshly allocated, not yet written storage. No proof
below unfolds this definition: every result holds whatever the value is. -/
@[irreducible]
def indeterminate : ℚ := 0

/-- The allocation `new double[n]`. -/
def newRow (n : Nat) : List ℚ :=
  List.replicate n indeterminate

/-- The allocation `new double*[n]`: `n` row pointers that point nowhere yet. -/
def newRows (n : Nat) : Grid :=
  List.replicate n []

/-- The class `SquareMat`: its two data members. -/
structure SquareMat where
  matrix : Grid
  size : Nat
  deriving DecidableEq, Repr

/-- The class invariant: `size >= 1`, there are `size` rows, and every row has
`size` elements. -/
def SquareMat.WF (m : SquareMat) : Prop :=
  1 ≤ m.size ∧ m.matrix.length = m.size ∧ ∀ row ∈ m.matrix, row.length = m.size

instance (m : SquareMat) : Decidable m.WF := by
  unfold SquareMat.WF
  exact inferInstance

/-- The element stored at row `i`, column `j`. -/
def SquareMat.elem (m : SquareMat) (i j : Nat) : ℚ :=
  get2 m.matrix i j

/-- The helper class `SquareMat::RowProxy`: a row and its length. -/
structure RowProxy where
  row : List ℚ
  size : Nat
  deriving DecidableEq, Repr

/-- Embedding of `RowProxy::operator[](int col)`: the mutable accessor, read through. -/
def RowProxy.operator_index (p : RowProxy) (col : Int) : Result ℚ :=
  if col < 0 ∨ col ≥ (p.size : Int) then
    Except.error Error.out_of_range
  else
    Except.ok (p.row.getD col.toNat 0)

/-- Embedding of `RowProxy::operator[](int col) const`. -/
def RowProxy.operator_index_const (p : RowProxy) (col : Int) : Result ℚ :=
  if col < 0 ∨ col ≥ (p.size : Int) then
    Except.error Error.out_of_range
  else
    Except.ok (p.row.getD col.toNat 0)

/-- Embedding of `SquareMat::SquareMat(int size)`. -/
def SquareMat.new (size : Int) : Result SquareMat :=
  if size ≤ 0 then
    Except.error Error.length_error
  else
    let n := size.toNat
    Except.ok (SquareMat.mk
      (forLoop n
        (fun i m => m.set i (forLoop n (fun j r => r.set j 0) (newRow n)))
        (newRows n))
      n)

/-- Embedding of `SquareMat::SquareMat(const SquareMat& other)`. -/
def SquareMat.copy (other : SquareMat) : SquareMat :=
  let n := other.size
  SquareMat.mk
    (forLoop n
      (fun i m => m.set i (forLoop n (fun j r => r.set j (get2 other.matrix i j)) (newRow n)))
      (newRows n))
    n

/-- Embedding of `SquareMat::identity(int size)`. -/
def SquareMat.identity (size : Int) : Result SquareMat :=
  if size ≤ 0 then
    Except.error Error.length_error
  else do
    let result ← SquareMat.new size
    pure (SquareMat.mk
      (forLoop size.toNat (fun i m => set2 m i i 1) result.matrix)
      result.size)

/-- Embedding of `SquareMat::operator[](int row)`. -/
def SquareMat.operator_index (m : SquareMat) (row : Int) : Result RowProxy :=
  if row < 0 ∨ row ≥ (m.size : Int) then
    Except.error Error.out_of_range
  else
    Except.ok (RowProxy.mk (m.matrix.getD row.toNat []) m.size)

/-- Embedding of `SquareMat::operator[](int row) const`. -/
def SquareMat.operator_index_const (m : SquareMat) (row : Int) : Result RowProxy :=
  if row < 0 ∨ row ≥ (m.size : Int) then
    Except.error Error.out_of_range
  else
    Except.ok (RowProxy.mk (m.matrix.getD row.toNat []) m.size)

/-- The expression `m[r][c]` on a mutable matrix. -/
def SquareMat.access (m : SquareMat) (r c : Int) : Result ℚ := do
  let p ← m.operator_index r
  p.operator_index c

/-- The expression `m[r][c]` on a `const` matrix. -/
def SquareMat.access_const (m : SquareMat) (r c : Int) : Result ℚ := do
  let p ← m.operator_index_const r
  p.operator_index_const c

/-- Embedding of `SquareMat::sum() const`: the sum of all elements, accumulated row by row. -/
def SquareMat.sum (m : SquareMat) : ℚ :=
  forLoop m.size
    (fun i result => forLoop m.size (fun j result => result + get2 m.matrix i j) result)
    0

/-- Embedding of `SquareMat::operator+(const SquareMat& other) const`. -/
def SquareMat.operator_add (self other : SquareMat) : Result SquareMat :=
  if self.size ≠ other.size then
    Except.error Error.invalid_argument
  else do
    let result ← SquareMat.new self.size
    pure (SquareMat.mk
      (forLoop self.size
        (fun i m => forLoop self.size
          (fun j m => set2 m i j (get2 self.matrix i j + get2 other.matrix i j)) m)
        result.matrix)
      result.size)

/-- Embedding of `SquareMat::operator-(const SquareMat& other) const`. -/
def SquareMat.operator_sub (self other : SquareMat) : Result SquareMat :=
  if self.size ≠ other.size then
    Except.error Error.invalid_argument
  else do
    let result ← SquareMat.new self.size
    pure (SquareMat.mk
      (forLoop self.size
        (fun i m => forLoop self.size
          (fun j m => set2 m i j (get2 self.matrix i j - get2 other.matrix i j)) m)
        result.matrix)
      result.size)

/-- Embedding of `SquareMat::operator*(const SquareMat& other) const`: the matrix product. The
innermost loop accumulates `sum += matrix[i][k] * other.matrix[k][j]` from `0.0`. -/
def SquareMat.operator_mul (self other : SquareMat) : Result SquareMat :=
  if self.size ≠ other.size then
    Except.error Error.invalid_argument
  else do
    let result ← SquareMat.new self.size
    pure (SquareMat.mk
      (forLoop self.size
        (fun i m => forLoop self.size
          (fun j m => set2 m i j
            (forLoop self.size
              (fun k sum => sum + get2 self.matrix i k * get2 other.matrix k j) 0)) m)
        result.matrix)
      result.size)

/-- Embedding of `SquareMat::operator%(const SquareMat& other) const`: the elementwise product. -/
def SquareMat.operator_mod (self other : SquareMat) : Result SquareMat :=
  if self.size ≠ other.size then
    Except.error Error.invalid_argument
  else do
    let result ← SquareMat.new self.size
    pure (SquareMat.mk
      (forLoop self.size
        (fun i m => forLoop self.size
          (fun j m => set2 m i j (get2 self.matrix i j * get2 other.matrix i j)) m)
        result.matrix)
      result.size)

/-- Embedding of `SquareMat::operator~() const`: the transpose. -/
def SquareMat.operator_transpose (self : SquareMat) : Result SquareMat := do
  let result ← SquareMat.new self.size
  pure (SquareMat.mk
    (forLoop self.size
      (fun i m => forLoop self.size
        (fun j m => set2 m i j (get2 self.matrix j i)) m)
      result.matrix)
    result.size)

/-- Embedding of `SquareMat::operator==(const SquareMat& other) const`. -/
def SquareMat.operator_eq (self other : SquareMat) : Result Bool :=
  pure (decide (self.sum = other.sum))

/-- Embedding of `SquareMat::operator!=(const SquareMat& other) const`. -/
def SquareMat.operator_ne (self other : SquareMat) : Result Bool :=
  pure (decide (self.sum ≠ other.sum))

/-- Embedding of `SquareMat::operator<(const SquareMat& other) const`. -/
def SquareMat.operator_lt (self other : SquareMat) : Result Bool :=
  pure (decide (self.sum < other.sum))

/-- Embedding of `SquareMat::operator>(const SquareMat& other) const`. -/
def SquareMat.operator_gt (self other : SquareMat) : Result Bool :=
  pure (decide (self.sum > other.sum))

/-- Embedding of `SquareMat::operator<=(const SquareMat& other) const`. -/
def SquareMat.operator_le (self other : SquareMat) : Result Bool :=
  pure (decide (self.sum ≤ other.sum))

/-- Embedding of `SquareMat::operator>=(const SquareMat& other) const`. -/
def SquareMat.operator_ge (self other : SquareMat) : Result Bool :=
  pure (decide (self.sum ≥ other.sum))

/-- The loop `for (int i = lo; i < hi; ++i) body(i)` acting on a state. -/
def forLoopFrom {σ : Type} (lo hi : Nat) (body : Nat → σ → σ) (s : σ) : σ :=
  (List.range' lo (hi - lo)).foldl (fun acc i => body i acc) s

/-- The value an `int` holds after an arithmetic result `z`: `z` reduced to the 32-bit
two's complement range. Inside the range nothing changes; outside it the C++ operation
overflows and the usual wrap-around is taken. -/
def wrapInt32 (z : Int) : Int :=
  (z + 2147483648) % 4294967296 - 2147483648

/-- The conversion `(int) x` of a `double`: truncation toward zero, then stored in an
`int`. -/
def castToInt (x : ℚ) : Int :=
  wrapInt32 (if 0 ≤ x then ⌊x⌋ else ⌈x⌉)

/-- Embedding of `SquareMat::modulo(double a, int b) const`. The products `b * q` are
products of two `int` values. The quotient `a / b`, the test `a != b * q` and the
difference `a - b * q` are taken in the rationals, as all element arithmetic here: the
rounding of `double` is not represented, so this value is the one the code returns only
where the code's quotient and difference are exact (for `a = -1e-30`, `b = 3` the code
returns `3.0`, the difference `3 - 1e-30` rounded). Nothing below concludes a range or a
closed form of this value from exact arithmetic. -/
def SquareMat.modulo (a : ℚ) (b : Int) : ℚ :=
  let q0 := castToInt (a / (b : ℚ))
  let q := if a < 0 ∧ a ≠ ((wrapInt32 (b * q0) : Int) : ℚ) then wrapInt32 (q0 - 1) else q0
  a - ((wrapInt32 (b * q) : Int) : ℚ)

/-- Embedding of `SquareMat::determinantHelper(double** mat, int n) const`. The state of
the loop over the columns `j` is `(det, sign, minor)`; the storage of `minor` is
allocated once and overwritten for every `j` by the loops over `i` and `j2`, whose
inner state is `(minor, col_index)`. The case `n = 0` is never reached from
`operator!` (the class invariant gives `size >= 1`); there the loop over `j` would not
run and `det` keeps its initial value. -/
def determinantHelper : Nat → Grid → ℚ
  | 0, _ => 0
  | 1, mat => get2 mat 0 0
  | 2, mat => get2 mat 0 0 * get2 mat 1 1 - get2 mat 0 1 * get2 mat 1 0
  | n + 3, mat =>
    let minor0 : Grid :=
      forLoop (n + 2) (fun i m => m.set i (newRow (n + 2))) (newRows (n + 2))
    let final : ℚ × Int × Grid :=
      forLoop (n + 3)
        (fun j st =>
          let minor : Grid :=
            forLoopFrom 1 (n + 3)
              (fun i m =>
                (forLoop (n + 3)
                  (fun j2 (c : Grid × Nat) =>
                    if j2 = j then c
                    else (set2 c.1 (i - 1) c.2 (get2 mat i j2), c.2 + 1))
                  (m, 0)).1)
              st.2.2
          (st.1 + (st.2.1 : ℚ) * get2 mat 0 j * determinantHelper (n + 2) minor,
            - st.2.1, minor))
        (0, 1, minor0)
    final.1

/-- Embedding of `SquareMat::operator!() const`: the determinant. -/
def SquareMat.operator_det (self : SquareMat) : ℚ :=
  determinantHelper self.size self.matrix

/-- Embedding of `SquareMat::operator%(int scalar) const`: the elementwise modulo. -/
def SquareMat.operator_mod_scalar (self : SquareMat) (scalar : Int) : Result SquareMat :=
  if scalar ≤ 0 then
    Except.error Error.invalid_argument
  else do
    let result ← SquareMat.new self.size
    pure (SquareMat.mk
      (forLoop self.size
        (fun i m => forLoop self.size
          (fun j m => set2 m i j (SquareMat.modulo (get2 self.matrix i j) scalar)) m)
        result.matrix)
      result.size)

/-- Embedding of `SquareMat::operator/(double scalar) const`. -/
def SquareMat.operator_div (self : SquareMat) (scalar : ℚ) : Result SquareMat :=
  if scalar = 0 then
    Except.error Error.invalid_argument
  else do
    let result ← SquareMat.new self.size
    pure (SquareMat.mk
      (forLoop self.size
        (fun i m => forLoop self.size
          (fun j m => set2 m i j (get2 self.matrix i j / scalar)) m)
        result.matrix)
      result.size)

/-- Embedding of `SquareMat::operator*=(const SquareMat& other)`: the value of the
receiver after the call. -/
def SquareMat.operator_mul_assign (self other : SquareMat) : Result SquareMat :=
  if self.size ≠ other.size then
    Except.error Error.invalid_argument
  else do
    let temp ← self.operator_mul other
    pure (SquareMat.mk
      (forLoop self.size
        (fun i m => forLoop self.size
          (fun j m => set2 m i j (get2 temp.matrix i j)) m)
        self.matrix)
      self.size)

/-- Embedding of `SquareMat::operator%=(int scalar)`: the value of the receiver after the
call. Every cell is read and then overwritten in place. -/
def SquareMat.operator_mod_scalar_assign (self : SquareMat) (scalar : Int) :
    Result SquareMat :=
  if scalar ≤ 0 then
    Except.error Error.invalid_argument
  else
    pure (SquareMat.mk
      (forLoop self.size
        (fun i m => forLoop self.size
          (fun j m => set2 m i j (SquareMat.modulo (get2 m i j) scalar)) m)
        self.matrix)
      self.size)

/-- The loop `while (p != 0) { result *= *this; p--; }` of `operator^`, run for at most
`fuel` iterations: `none` when the fuel runs out before the loop ends. -/
def powLoop (self : SquareMat) : Nat → Int → SquareMat → Option (Result SquareMat)
  | 0, p, result =>
    if p ≠ 0 then none else some (Except.ok result)
  | fuel + 1, p, result =>
    if p ≠ 0 then
      match result.operator_mul_assign self with
      | Except.error e => some (Except.error e)
      | Except.ok r => powLoop self fuel (p - 1) r
    else some (Except.ok result)

/-- Embedding of `SquareMat::operator^(int power) const`, its loop bounded by `fuel`. -/
def SquareMat.operator_pow (fuel : Nat) (self : SquareMat) (power : Int) :
    Option (Result SquareMat) :=
  if power < 0 then
    some (Except.error Error.invalid_argument)
  else if power = 0 then
    some (SquareMat.identity self.size)
  else if power = 1 then
    some (Except.ok self.copy)
  else
    powLoop self fuel (power - 1) self.copy

/-- The minor of the specification: row 0 and column `j` deleted. -/
def deleteRowCol (mat : Grid) (j : Nat) : Grid :=
  (mat.drop 1).map (fun row => row.eraseIdx j)

/-- The first-row cofactor expansion on a table of entries `f i j`, the minor being
taken by skipping row 0 and column `j`. -/
def cofactorDet : Nat → (Nat → Nat → ℚ) → ℚ
  | 0, _ => 0
  | 1, f => f 0 0
  | 2, f => f 0 0 * f 1 1 - f 0 1 * f 1 0
  | n + 3, f =>
    ∑ j in Finset.range (n + 3),
      (-1) ^ j * f 0 j * cofactorDet (n + 2) (fun a b => f (a + 1) (if b < j then b else b + 1))

/-- The entries of a stored matrix as a mathematical `n × n` matrix. -/
def SquareMat.toMatrix (n : Nat) (m : SquareMat) : Matrix (Fin n) (Fin n) ℚ :=
  Matrix.of (fun i j => m.elem i j)

/-- Embedding of `SquareMat::operator-() const`: the elementwise negation. -/
def SquareMat.operator_neg (self : SquareMat) : Result SquareMat := do
  let result ← SquareMat.new self.size
  pure (SquareMat.mk
    (forLoop self.size
      (fun i m => forLoop self.size
        (fun j m => set2 m i j (- get2 self.matrix i j)) m)
      result.matrix)
    result.size)

/-- Embedding of `SquareMat::operator*(double scalar) const`. -/
def SquareMat.operator_mul_scalar (self : SquareMat) (scalar : ℚ) : Result SquareMat := do
  let result ← SquareMat.new self.size
  pure (SquareMat.mk
    (forLoop self.size
      (fun i m => forLoop self.size
        (fun j m => set2 m i j (get2 self.matrix i j * scalar)) m)
      result.matrix)
    result.size)

/-- Embedding of the friend `operator*(double scalar, const SquareMat& mat)`. -/
def operator_mul_scalar_left (scalar : ℚ) (mat : SquareMat) : Result SquareMat :=
  mat.operator_mul_scalar scalar

/-- Embedding of `SquareMat::operator=(const SquareMat& other)`: the receiver after the
call. The test `this == &other` compares addresses, so whether the two operands are the
same object is an argument. -/
def SquareMat.operator_assign (self other : SquareMat) (sameObject : Bool) : SquareMat :=
  if sameObject then
    self
  else
    let n := other.size
    SquareMat.mk
      (forLoop n
        (fun i m => m.set i (forLoop n (fun j r => r.set j (get2 other.matrix i j)) (newRow n)))
        (newRows n))
      n

/-- Embedding of `SquareMat::operator++()`: the receiver after the call, which is also
the object the returned reference denotes. -/
def SquareMat.operator_pre_inc (self : SquareMat) : SquareMat :=
  SquareMat.mk
    (forLoop self.size
      (fun i m => forLoop self.size
        (fun j m => set2 m i j (get2 m i j + 1)) m)
      self.matrix)
    self.size

/-- Embedding of `SquareMat::operator++(int)`: the returned copy `temp` and the receiver
after the call. -/
def SquareMat.operator_post_inc (self : SquareMat) : SquareMat × SquareMat :=
  let temp := self.copy
  (temp, self.operator_pre_inc)

/-- Embedding of `SquareMat::operator--()`: the receiver after the call, which is also
the object the returned reference denotes. -/
def SquareMat.operator_pre_dec (self : SquareMat) : SquareMat :=
  SquareMat.mk
    (forLoop self.size
      (fun i m => forLoop self.size
        (fun j m => set2 m i j (get2 m i j - 1)) m)
      self.matrix)
    self.size

/-- Embedding of `SquareMat::operator--(int)`: the returned copy `temp` and the receiver
after the call. -/
def SquareMat.operator_post_dec (self : SquareMat) : SquareMat × SquareMat :=
  let temp := self.copy
  (temp, self.operator_pre_dec)

/-- A call of a compound assignment operator seen from the caller: the state of the
receiver when the call ends, by return or by exception, and the exception thrown if
the call ended by one. -/
structure InPlace where
  receiver : SquareMat
  thrown : Option Error
  deriving DecidableEq, Repr

/-- Embedding of `SquareMat::operator+=(const SquareMat& other)`. -/
def SquareMat.operator_add_assign_call (self other : SquareMat) : InPlace :=
  if self.size ≠ other.size then
    InPlace.mk self (some Error.invalid_argument)
  else
    InPlace.mk
      (SquareMat.mk
        (forLoop self.size
          (fun i m => forLoop self.size
            (fun j m => set2 m i j (get2 m i j + get2 other.matrix i j)) m)
          self.matrix)
        self.size)
      none

/-- Embedding of `SquareMat::operator-=(const SquareMat& other)`. -/
def SquareMat.operator_sub_assign_call (self other : SquareMat) : InPlace :=
  if self.size ≠ other.size then
    InPlace.mk self (some Error.invalid_argument)
  else
    InPlace.mk
      (SquareMat.mk
        (forLoop self.size
          (fun i m => forLoop self.size
            (fun j m => set2 m i j (get2 m i j - get2 other.matrix i j)) m)
          self.matrix)
        self.size)
      none

/-- Embedding of `SquareMat::operator*=(const SquareMat& other)`, the receiver being
followed through the call: the product goes to `temp` first and is copied back. -/
def SquareMat.operator_mul_assign_call (self other : SquareMat) : InPlace :=
  if self.size ≠ other.size then
    InPlace.mk self (some Error.invalid_argument)
  else
    match self.operator_mul other with
    | Except.error e => InPlace.mk self (some e)
    | Except.ok temp =>
      InPlace.mk
        (SquareMat.mk
          (forLoop self.size
            (fun i m => forLoop self.size
              (fun j m => set2 m i j (get2 temp.matrix i j)) m)
            self.matrix)
          self.size)
        none

/-- Embedding of `SquareMat::operator*=(double scalar)`. -/
def SquareMat.operator_mul_scalar_assign_call (self : SquareMat) (scalar : ℚ) : InPlace :=
  InPlace.mk
    (SquareMat.mk
      (forLoop self.size
        (fun i m => forLoop self.size
          (fun j m => set2 m i j (get2 m i j * scalar)) m)
        self.matrix)
      self.size)
    none

/-- Embedding of `SquareMat::operator%=(const SquareMat& other)`: the elementwise
product in place. -/
def SquareMat.operator_mod_assign_call (self other : SquareMat) : InPlace :=
  if self.size ≠ other.size then
    InPlace.mk self (some Error.invalid_argument)
  else
    InPlace.mk
      (SquareMat.mk
        (forLoop self.size
          (fun i m => forLoop self.size
            (fun j m => set2 m i j (get2 m i j * get2 other.matrix i j)) m)
          self.matrix)
        self.size)
      none

/-- Embedding of `SquareMat::operator%=(int scalar)`, the receiver being followed
through the call. -/
def SquareMat.operator_mod_scalar_assign_call (self : SquareMat) (scalar : Int) : InPlace :=
  if scalar ≤ 0 then
    InPlace.mk self (some Error.invalid_argument)
  else
    InPlace.mk
      (SquareMat.mk
        (forLoop self.size
          (fun i m => forLoop self.size
            (fun j m => set2 m i j (SquareMat.modulo (get2 m i j) scalar)) m)
          self.matrix)
        self.size)
      none

/-- Embedding of `SquareMat::operator/=(double scalar)`. -/
def SquareMat.operator_div_assign_call (self : SquareMat) (scalar : ℚ) : InPlace :=
  if scalar = 0 then
    InPlace.mk self (some Error.invalid_argument)
  else
    InPlace.mk
      (SquareMat.mk
        (forLoop self.size
          (fun i m => forLoop self.size
            (fun j m => set2 m i j (get2 m i j / scalar)) m)
          self.matrix)
        self.size)
      none

/-- The number of elements held in the storage of a matrix. -/
def SquareMat.elemCount (m : SquareMat) : Nat :=
  (m.matrix.map List.length).sum

/-- The size invariant of a matrix `r` made from an operand `a`: `r` has `size >= 1`,
`size` rows of `size` elements, `size * size` elements in all, and the size of `a`. -/
def SquareMat.KeepsSize (r a : SquareMat) : Prop :=
  r.WF ∧ r.elemCount = r.size * r.size ∧ r.size = a.size

/-- An in-place call agrees with the result of the binary operator: both throw the same
exception, or neither throws and the receiver has the size and the elements of the
binary result. -/
def InPlace.Agrees (c : InPlace) (r : Result SquareMat) : Prop :=
  match r with
  | Except.error e => c.thrown = some e
  | Except.ok R => c.thrown = none ∧ c.receiver.size = R.size ∧
      ∀ i j, i < R.size → j < R.size → c.receiver.elem i j = R.elem i j

/-- Storage of `n` rows of `n` elements each. -/
def Dim (n : Nat) (g : Grid) : Prop :=
  g.length = n ∧ ∀ row ∈ g, row.length = n

/-- The matrix `m1` of the test suite: rows `[1, 2]` and `[3, 4]`. -/
def testM1 : SquareMat := SquareMat.mk [[1, 2], [3, 4]] 2

/-- The matrix `m2` of the arithmetic tests: rows `[5, 6]` and `[7, 8]`. -/
def testM2 : SquareMat := SquareMat.mk [[5, 6], [7, 8]] 2

/-- The matrix `m3` of the size-mismatch tests: `SquareMat m3(3)`, all zero. -/
def testZ3 : SquareMat := SquareMat.mk [[0, 0, 0], [0, 0, 0], [0, 0, 0]] 3

/-- The matrix `m3` of the determinant test: rows `[1, 2, 3]`, `[4, 5, 6]`, `[7, 8, 9]`. -/
def testM3 : SquareMat := SquareMat.mk [[1, 2, 3], [4, 5, 6], [7, 8, 9]] 3

/-- The matrix of the modulo test: rows `[5.5, -2.5]` and `[10.5, -7.5]`. -/
def testMod : SquareMat := SquareMat.mk [[11 / 2, -5 / 2], [21 / 2, -15 / 2]] 2

/-- The matrix with two identical rows of the determinant test: rows `[1, 2]`, `[1, 2]`. -/
def testRows : SquareMat := SquareMat.mk [[1, 2], [1, 2]] 2

/-- A matrix of size 1 whose element `-3000000001.0` has a quotient by 3 inside the range
of `int` while three times that quotient is outside it. -/
def testOverflow : SquareMat := SquareMat.mk [[-3000000001]] 1

/-- The matrix `m3` of the comparison tests: rows `[4, 3]` and `[2, 1]`, of sum 10. -/
def testSum10 : SquareMat := SquareMat.mk [[4, 3], [2, 1]] 2

/-! ## Loops and raw storage -/

theorem forLoop_zero {σ : Type} (body : Nat → σ → σ) (s : σ) : forLoop 0 body s = s := by
  simp [forLoop]

theorem forLoop_succ {σ : Type} (n : Nat) (body : Nat → σ → σ) (s : σ) :
    forLoop (n + 1) body s = body n (forLoop n body s) := by
  simp [forLoop, List.range_succ, List.foldl_append]


theorem forLoop_set_length {α : Type} (f : Nat → α) (l : List α) (c : Nat) :
    (forLoop c (fun i acc => acc.set i (f i)) l).length = l.length := by
  induction c with
  | zero => simp [forLoop_zero]
  | succ c ih => simp [forLoop_succ, ih]

theorem forLoop_set_getElem? {α : Type} (f : Nat → α) (l : List α) (c : Nat)
    (hc : c ≤ l.length) (i : Nat) :
    (forLoop c (fun i acc => acc.set i (f i)) l)[i]? =
      if i < c then some (f i) else l[i]? := by
  induction c with
  | zero => simp [forLoop_zero]
  | succ c ih =>
    have hc1 : c ≤ l.length := Nat.le_of_succ_le hc
    rw [forLoop_succ, List.getElem?_set, forLoop_set_length, ih hc1]
    by_cases h1 : c = i
    · subst h1
      have : c < l.length := hc
      simp [this]
    · have h2 : (i < c + 1) ↔ (i < c) := by omega
      simp [h1, h2]

theorem get2_eq (g : Grid) (i j : Nat) :
    get2 g i j = ((g[i]?.getD [])[j]?).getD 0 := by
  simp [get2, List.getD_eq_getElem?_getD]

theorem Dim.row_length {n : Nat} {g : Grid} (h : Dim n g) {i : Nat} (hi : i < n) :
    (g.getD i []).length = n := by
  have hlen : i < g.length := by rw [h.1]; exact hi
  have : g.getD i [] = g[i] := by
    simp [List.getD_eq_getElem?_getD, List.getElem?_eq_getElem hlen]
  rw [this]
  exact h.2 _ (List.getElem_mem hlen)

theorem Dim.set2 {n : Nat} {g : Grid} (h : Dim n g) (i j : Nat) (v : ℚ) :
    Dim n (set2 g i j v) := by
  refine ⟨by simp [matrix_ops.set2, h.1], ?_⟩
  intro row hrow
  rcases List.mem_or_eq_of_mem_set hrow with hmem | heq
  · exact h.2 row hmem
  · by_cases hi : i < n
    · rw [heq, List.length_set]
      exact h.row_length hi
    · have hlen : g.length ≤ i := by rw [h.1]; omega
      rw [matrix_ops.set2, List.set_eq_of_length_le hlen] at hrow
      exact h.2 row hrow

theorem get2_set2 {n : Nat} {g : Grid} (h : Dim n g) {i j : Nat} (hi : i < n) (hj : j < n)
    (v : ℚ) (a b : Nat) :
    get2 (set2 g i j v) a b = if a = i ∧ b = j then v else get2 g a b := by
  have hlen : i < g.length := by rw [h.1]; exact hi
  have hrow : j < (g.getD i []).length := by rw [h.row_length hi]; exact hj
  simp only [get2_eq, matrix_ops.set2, List.getElem?_set]
  by_cases ha : i = a
  · subst ha
    simp only [hlen, if_true, Option.getD_some, true_and, List.getElem?_set]
    by_cases hb : j = b
    · subst hb
      have hrow' : j < (g[i]?.getD []).length := by
        simpa [List.getD_eq_getElem?_getD] using hrow
      simp [hrow']
    · have hb' : ¬ b = j := fun e => hb e.symm
      simp [hb, hb', List.getD_eq_getElem?_getD]
  · have ha' : ¬ a = i := fun e => ha e.symm
    simp [ha, ha']


theorem rowLoop_spec {n : Nat} (f : Nat → ℚ) {i : Nat} (hi : i < n) (c : Nat) (hc : c ≤ n)
    {g : Grid} (h : Dim n g) :
    Dim n (forLoop c (fun j m => set2 m i j (f j)) g) ∧
      ∀ a b, get2 (forLoop c (fun j m => set2 m i j (f j)) g) a b =
        if a = i ∧ b < c then f b else get2 g a b := by
  induction c with
  | zero => simp [forLoop_zero, h]
  | succ c ih =>
    obtain ⟨hd, hg⟩ := ih (Nat.le_of_succ_le hc)
    rw [forLoop_succ]
    refine ⟨hd.set2 _ _ _, ?_⟩
    intro a b
    rw [get2_set2 hd hi (by omega : c < n), hg]
    by_cases hb : b = c
    · subst hb
      by_cases ha : a = i <;> simp [ha]
    · have h2 : (b < c + 1) ↔ (b < c) := by omega
      simp [hb, h2]

theorem fillLoop_spec {n : Nat} (f : Nat → Nat → ℚ) (c : Nat) (hc : c ≤ n)
    {g : Grid} (h : Dim n g) :
    Dim n (forLoop c (fun i m => forLoop n (fun j m => set2 m i j (f i j)) m) g) ∧
      ∀ a b, get2 (forLoop c (fun i m => forLoop n (fun j m => set2 m i j (f i j)) m) g) a b =
        if a < c ∧ b < n then f a b else get2 g a b := by
  induction c with
  | zero => simp [forLoop_zero, h]
  | succ c ih =>
    obtain ⟨hd, hg⟩ := ih (Nat.le_of_succ_le hc)
    rw [forLoop_succ]
    obtain ⟨hd', hg'⟩ := rowLoop_spec (f c) (by omega : c < n) n (Nat.le_refl n) hd
    refine ⟨hd', ?_⟩
    intro a b
    rw [hg', hg]
    by_cases ha : a = c
    · subst ha
      by_cases hb : b < n <;> simp [hb]
    · have h2 : (a < c + 1) ↔ (a < c) := by omega
      simp [ha, h2]


/-- The storage built by the allocation loops of the constructors, cell `(i, j)`
being initialised to `f i j`. -/
theorem allocLoop_spec (n : Nat) (f : Nat → Nat → ℚ) :
    Dim n (forLoop n
        (fun i m => m.set i (forLoop n (fun j r => r.set j (f i j)) (newRow n))) (newRows n)) ∧
      ∀ a b, a < n → b < n →
        get2 (forLoop n
          (fun i m => m.set i (forLoop n (fun j r => r.set j (f i j)) (newRow n)))
          (newRows n)) a b = f a b := by
  have hrows : (newRows n).length = n := by simp [newRows]
  have hrow : (newRow n).length = n := by simp [newRow]
  have hget : ∀ a, a < n →
      (forLoop n
        (fun i m => m.set i (forLoop n (fun j r => r.set j (f i j)) (newRow n)))
        (newRows n))[a]? = some (forLoop n (fun j r => r.set j (f a j)) (newRow n)) := by
    intro a ha
    rw [forLoop_set_getElem? (fun i => forLoop n (fun j r => r.set j (f i j)) (newRow n))
      (newRows n) n (by rw [hrows]) a]
    simp [ha]
  have hlen : (forLoop n
        (fun i m => m.set i (forLoop n (fun j r => r.set j (f i j)) (newRow n)))
        (newRows n)).length = n := by
    rw [forLoop_set_length (fun i => forLoop n (fun j r => r.set j (f i j)) (newRow n))]
    exact hrows
  refine ⟨⟨hlen, ?_⟩, ?_⟩
  · intro row hmem
    obtain ⟨k, hk, hk'⟩ := List.getElem_of_mem hmem
    have hkn : k < n := by rw [← hlen]; exact hk
    have h1 := hget k hkn
    rw [List.getElem?_eq_getElem hk, hk'] at h1
    have h2 : row = forLoop n (fun j r => r.set j (f k j)) (newRow n) := Option.some.inj h1
    rw [h2, forLoop_set_length (f k), hrow]
  · intro a b ha hb
    rw [get2_eq, hget a ha, Option.getD_some,
      forLoop_set_getElem? (f a) (newRow n) n (by rw [hrow]) b]
    simp [hb]

theorem new_ofNat (n : Nat) (hn : 1 ≤ n) :
    SquareMat.new (n : Int) = Except.ok (SquareMat.mk
      (forLoop n
        (fun i m => m.set i (forLoop n (fun j r => r.set j 0) (newRow n)))
        (newRows n))
      n) := by
  have h : ¬ ((n : Int) ≤ 0) := by omega
  simp [SquareMat.new, h]


theorem diagLoop_spec {n : Nat} (c : Nat) (hc : c ≤ n) {g : Grid} (h : Dim n g) :
    Dim n (forLoop c (fun i m => set2 m i i 1) g) ∧
      ∀ a b, get2 (forLoop c (fun i m => set2 m i i 1) g) a b =
        if a = b ∧ a < c then 1 else get2 g a b := by
  induction c with
  | zero => simp [forLoop_zero, h]
  | succ c ih =>
    obtain ⟨hd, hg⟩ := ih (Nat.le_of_succ_le hc)
    rw [forLoop_succ]
    refine ⟨hd.set2 _ _ _, ?_⟩
    intro a b
    rw [get2_set2 hd (by omega : c < n) (by omega : c < n), hg]
    by_cases ha : a = c
    · subst ha
      by_cases hb : b = a
      · subst hb
        simp
      · have hb' : ¬ a = b := fun e => hb e.symm
        simp [hb, hb']
    · have h2 : (a < c + 1) ↔ (a < c) := by omega
      simp [ha, h2]

theorem sumLoop_spec (n : Nat) (f : Nat → ℚ) (s : ℚ) :
    forLoop n (fun k acc => acc + f k) s = s + ∑ k in Finset.range n, f k := by
  induction n with
  | zero => simp [forLoop_zero]
  | succ n ih => rw [forLoop_succ, ih, Finset.sum_range_succ, add_assoc]

theorem WF.dim {m : SquareMat} (h : m.WF) : Dim m.size m.matrix :=
  ⟨h.2.1, h.2.2⟩

/-- A fresh `result(size)` whose every cell is then assigned `f i j`. -/
theorem fresh_fill_spec (n : Nat) (hn : 1 ≤ n) (f : Nat → Nat → ℚ) :
    ∃ R : SquareMat,
      (SquareMat.new (n : Int) >>= fun result =>
        (pure (SquareMat.mk
          (forLoop n (fun i m => forLoop n (fun j m => set2 m i j (f i j)) m) result.matrix)
          result.size) : Result SquareMat)) = Except.ok R ∧
      R.size = n ∧ R.WF ∧ ∀ i j, i < n → j < n → R.elem i j = f i j := by
  rw [new_ofNat n hn]
  obtain ⟨hd, -⟩ := allocLoop_spec n (fun _ _ => 0)
  obtain ⟨hd', hg⟩ := fillLoop_spec f n (Nat.le_refl n) hd
  refine ⟨_, rfl, rfl, ⟨hn, hd'.1, hd'.2⟩, ?_⟩
  intro i j hi hj
  simp only [SquareMat.elem]
  rw [hg]
  simp [hi, hj]


theorem operator_add_spec (A B : SquareMat) (hA : A.WF) (h : A.size = B.size) :
    ∃ R, A.operator_add B = Except.ok R ∧ R.size = A.size ∧ R.WF ∧
      ∀ i j, i < A.size → j < A.size → R.elem i j = A.elem i j + B.elem i j := by
  unfold SquareMat.operator_add
  rw [if_neg (not_not.mpr h)]
  exact fresh_fill_spec A.size hA.1 (fun i j => get2 A.matrix i j + get2 B.matrix i j)

theorem operator_sub_spec (A B : SquareMat) (hA : A.WF) (h : A.size = B.size) :
    ∃ R, A.operator_sub B = Except.ok R ∧ R.size = A.size ∧ R.WF ∧
      ∀ i j, i < A.size → j < A.size → R.elem i j = A.elem i j - B.elem i j := by
  unfold SquareMat.operator_sub
  rw [if_neg (not_not.mpr h)]
  exact fresh_fill_spec A.size hA.1 (fun i j => get2 A.matrix i j - get2 B.matrix i j)

theorem operator_mod_spec (A B : SquareMat) (hA : A.WF) (h : A.size = B.size) :
    ∃ R, A.operator_mod B = Except.ok R ∧ R.size = A.size ∧ R.WF ∧
      ∀ i j, i < A.size → j < A.size → R.elem i j = A.elem i j * B.elem i j := by
  unfold SquareMat.operator_mod
  rw [if_neg (not_not.mpr h)]
  exact fresh_fill_spec A.size hA.1 (fun i j => get2 A.matrix i j * get2 B.matrix i j)

theorem operator_mul_spec (A B : SquareMat) (hA : A.WF) (h : A.size = B.size) :
    ∃ R, A.operator_mul B = Except.ok R ∧ R.size = A.size ∧ R.WF ∧
      ∀ i j, i < A.size → j < A.size →
        R.elem i j = ∑ k in Finset.range A.size, A.elem i k * B.elem k j := by
  unfold SquareMat.operator_mul
  rw [if_neg (not_not.mpr h)]
  obtain ⟨R, hR, hs, hwf, he⟩ := fresh_fill_spec A.size hA.1
    (fun i j => forLoop A.size (fun k sum => sum + get2 A.matrix i k * get2 B.matrix k j) 0)
  refine ⟨R, hR, hs, hwf, ?_⟩
  intro i j hi hj
  rw [he i j hi hj, sumLoop_spec, zero_add]
  rfl

theorem operator_transpose_spec (A : SquareMat) (hA : A.WF) :
    ∃ R, A.operator_transpose = Except.ok R ∧ R.size = A.size ∧ R.WF ∧
      ∀ i j, i < A.size → j < A.size → R.elem i j = A.elem j i := by
  unfold SquareMat.operator_transpose
  exact fresh_fill_spec A.size hA.1 (fun i j => get2 A.matrix j i)

theorem new_spec (size : Int) (h : 0 < size) :
    ∃ m, SquareMat.new size = Except.ok m ∧ (m.size : Int) = size ∧ m.WF ∧
      ∀ i j, i < m.size → j < m.size → m.elem i j = 0 := by
  obtain ⟨n, rfl⟩ := Int.eq_ofNat_of_zero_le (le_of_lt h)
  have hn : 1 ≤ n := by omega
  obtain ⟨hd, hg⟩ := allocLoop_spec n (fun _ _ => 0)
  exact ⟨_, new_ofNat n hn, rfl, ⟨hn, hd.1, hd.2⟩, fun i j hi hj => hg i j hi hj⟩

theorem identity_spec (size : Int) (h : 0 < size) :
    ∃ m, SquareMat.identity size = Except.ok m ∧ (m.size : Int) = size ∧ m.WF ∧
      ∀ i j, i < m.size → j < m.size → m.elem i j = if i = j then 1 else 0 := by
  obtain ⟨n, rfl⟩ := Int.eq_ofNat_of_zero_le (le_of_lt h)
  have hn : 1 ≤ n := by omega
  obtain ⟨hd, hg⟩ := allocLoop_spec n (fun _ _ => 0)
  obtain ⟨hd', hg'⟩ := diagLoop_spec n (Nat.le_refl n) hd
  unfold SquareMat.identity
  rw [if_neg (by omega), new_ofNat n hn]
  refine ⟨_, rfl, rfl, ⟨hn, ?_, ?_⟩, ?_⟩
  · simpa using hd'.1
  · simpa using hd'.2
  · intro i j hi hj
    have hi' : i < n := hi
    have hj' : j < n := hj
    simp only [SquareMat.elem, Int.toNat_ofNat]
    rw [hg', hg i j hi' hj']
    by_cases hij : i = j
    · subst hij
      simp [hi']
    · simp [hij]

theorem access_spec (m : SquareMat) (i j : Nat) (hi : i < m.size) (hj : j < m.size) :
    m.access (i : Int) (j : Int) = Except.ok (m.elem i j) := by
  have h1 : ¬ ((i : Int) < 0 ∨ (i : Int) ≥ (m.size : Int)) := by omega
  have h2 : ¬ ((j : Int) < 0 ∨ (j : Int) ≥ (m.size : Int)) := by omega
  simp only [SquareMat.access, SquareMat.operator_index, RowProxy.operator_index, if_neg h1]
  show (if (j : Int) < 0 ∨ (j : Int) ≥ (m.size : Int) then _ else _) = _
  rw [if_neg h2]
  rfl



/-! ## The accessors, the constructor and the operators -/


theorem access_const_eq_access (m : SquareMat) (r c : Int) :
    m.access_const r c = m.access r c := rfl

theorem access_of_inRange (m : SquareMat) (r c : Int)
    (hr0 : 0 ≤ r) (hr : r < m.size) (hc0 : 0 ≤ c) (hc : c < m.size) :
    m.access r c = Except.ok (m.elem r.toNat c.toNat) := by
  obtain ⟨i, rfl⟩ := Int.eq_ofNat_of_zero_le hr0
  obtain ⟨j, rfl⟩ := Int.eq_ofNat_of_zero_le hc0
  exact access_spec m i j (by omega) (by omega)

theorem access_error_iff (m : SquareMat) (r c : Int) :
    m.access r c = Except.error Error.out_of_range ↔
      (r < 0 ∨ r ≥ m.size ∨ c < 0 ∨ c ≥ m.size) := by
  by_cases hr : r < 0 ∨ r ≥ (m.size : Int)
  · have : m.access r c = Except.error Error.out_of_range := by
      simp only [SquareMat.access, SquareMat.operator_index, if_pos hr]
      rfl
    constructor
    · intro _; omega
    · intro _; exact this
  · by_cases hc : c < 0 ∨ c ≥ (m.size : Int)
    · have : m.access r c = Except.error Error.out_of_range := by
        simp only [SquareMat.access, SquareMat.operator_index, if_neg hr]
        show RowProxy.operator_index _ c = _
        simp only [RowProxy.operator_index]
        rw [if_pos hc]
      constructor
      · intro _; omega
      · intro _; exact this
    · rw [access_of_inRange m r c (by omega) (by omega) (by omega) (by omega)]
      constructor
      · intro h; cases h
      · intro h; omega

/-- C1: on a matrix of size `n`, `m[r][c]` (through the mutable accessor and through
the `const` accessor) throws `std::out_of_range` exactly when `r < 0`, `r >= n`,
`c < 0` or `c >= n`; otherwise it returns the element stored in row `r`, column `c`. -/
theorem access_fails_iff_index_out_of_range (m : SquareMat) (hm : m.WF) (r c : Int) :
    (m.access r c = Except.error Error.out_of_range ↔
        (r < 0 ∨ r ≥ m.size ∨ c < 0 ∨ c ≥ m.size)) ∧
    (m.access_const r c = Except.error Error.out_of_range ↔
        (r < 0 ∨ r ≥ m.size ∨ c < 0 ∨ c ≥ m.size)) ∧
    (¬ (r < 0 ∨ r ≥ m.size ∨ c < 0 ∨ c ≥ m.size) →
      ∃ row v, m.matrix[r.toNat]? = some row ∧ row[c.toNat]? = some v ∧
        m.access r c = Except.ok v ∧ m.access_const r c = Except.ok v) := by
  refine ⟨access_error_iff m r c, ?_, ?_⟩
  · rw [access_const_eq_access]
    exact access_error_iff m r c
  · intro h
    have hr : r.toNat < m.size := by omega
    have hc : c.toNat < m.size := by omega
    have hlen : r.toNat < m.matrix.length := by rw [hm.2.1]; exact hr
    have hrow : (m.matrix[r.toNat]).length = m.size := hm.2.2 _ (List.getElem_mem hlen)
    have hclen : c.toNat < (m.matrix[r.toNat]).length := by rw [hrow]; exact hc
    refine ⟨m.matrix[r.toNat], (m.matrix[r.toNat])[c.toNat], List.getElem?_eq_getElem hlen,
      List.getElem?_eq_getElem hclen, ?_, ?_⟩
    · rw [access_of_inRange m r c (by omega) (by omega) (by omega) (by omega)]
      simp [SquareMat.elem, get2_eq, List.getElem?_eq_getElem hlen,
        List.getElem?_eq_getElem hclen]
    · rw [access_const_eq_access,
        access_of_inRange m r c (by omega) (by omega) (by omega) (by omega)]
      simp [SquareMat.elem, get2_eq, List.getElem?_eq_getElem hlen,
        List.getElem?_eq_getElem hclen]

theorem access_fails_iff_index_out_of_range_witness :
    testM1.WF ∧
    ((testM1.access 1 0 = Except.error Error.out_of_range ↔
        ((1 : Int) < 0 ∨ (1 : Int) ≥ testM1.size ∨ (0 : Int) < 0 ∨ (0 : Int) ≥ testM1.size)) ∧
    (testM1.access_const 1 0 = Except.error Error.out_of_range ↔
        ((1 : Int) < 0 ∨ (1 : Int) ≥ testM1.size ∨ (0 : Int) < 0 ∨ (0 : Int) ≥ testM1.size)) ∧
    (¬ ((1 : Int) < 0 ∨ (1 : Int) ≥ testM1.size ∨ (0 : Int) < 0 ∨ (0 : Int) ≥ testM1.size) →
      ∃ row v, testM1.matrix[(1 : Int).toNat]? = some row ∧ row[(0 : Int).toNat]? = some v ∧
        testM1.access 1 0 = Except.ok v ∧ testM1.access_const 1 0 = Except.ok v)) :=
  ⟨by decide, access_fails_iff_index_out_of_range testM1 (by decide) 1 0⟩


/-- C2: `SquareMat(size)` throws `std::length_error` exactly when `size <= 0`; for
`size > 0` it returns a matrix of that size whose every element `[i][j]`,
`0 <= i, j < size`, reads `0.0`. -/
theorem constructor_fails_iff_size_nonpositive (size : Int) :
    (SquareMat.new size = Except.error Error.length_error ↔ size ≤ 0) ∧
    (0 < size → ∃ m, SquareMat.new size = Except.ok m ∧ (m.size : Int) = size ∧ m.WF ∧
      ∀ i j : Int, 0 ≤ i → i < size → 0 ≤ j → j < size → m.access i j = Except.ok 0) := by
  constructor
  · constructor
    · intro h
      by_contra hpos
      obtain ⟨m, hm, -⟩ := new_spec size (by omega)
      rw [hm] at h
      cases h
    · intro h
      simp [SquareMat.new, h]
  · intro h
    obtain ⟨m, hm, hs, hwf, he⟩ := new_spec size h
    refine ⟨m, hm, hs, hwf, ?_⟩
    intro i j hi0 hi hj0 hj
    rw [access_of_inRange m i j hi0 (by omega) hj0 (by omega), he _ _ (by omega) (by omega)]

theorem constructor_fails_iff_size_nonpositive_witness :
    (SquareMat.new 3 = Except.error Error.length_error ↔ (3 : Int) ≤ 0) ∧
    ((0 : Int) < 3 → ∃ m, SquareMat.new 3 = Except.ok m ∧ (m.size : Int) = 3 ∧ m.WF ∧
      ∀ i j : Int, 0 ≤ i → i < 3 → 0 ≤ j → j < 3 → m.access i j = Except.ok 0) :=
  constructor_fails_iff_size_nonpositive 3

/-- C3: for `s > 0` and `0 <= i, j < s`, `identity(s)[i][j]` is `1.0` when `i == j`
and `0.0` otherwise; for `s <= 0`, `identity(s)` throws `std::length_error`. -/
theorem identity_entries (s : Int) :
    (0 < s → ∃ m, SquareMat.identity s = Except.ok m ∧ (m.size : Int) = s ∧ m.WF ∧
      ∀ i j : Int, 0 ≤ i → i < s → 0 ≤ j → j < s →
        m.access i j = Except.ok (if i = j then 1 else 0)) ∧
    (s ≤ 0 → SquareMat.identity s = Except.error Error.length_error) := by
  constructor
  · intro h
    obtain ⟨m, hm, hs, hwf, he⟩ := identity_spec s h
    refine ⟨m, hm, hs, hwf, ?_⟩
    intro i j hi0 hi hj0 hj
    rw [access_of_inRange m i j hi0 (by omega) hj0 (by omega), he _ _ (by omega) (by omega)]
    have hij : (i.toNat = j.toNat) ↔ (i = j) := by omega
    simp [hij]
  · intro h
    simp [SquareMat.identity, h]

theorem identity_entries_witness :
    ((0 : Int) < 3 → ∃ m, SquareMat.identity 3 = Except.ok m ∧ (m.size : Int) = 3 ∧ m.WF ∧
      ∀ i j : Int, 0 ≤ i → i < 3 → 0 ≤ j → j < 3 →
        m.access i j = Except.ok (if i = j then 1 else 0)) ∧
    ((3 : Int) ≤ 0 → SquareMat.identity 3 = Except.error Error.length_error) :=
  identity_entries 3


theorem operator_add_mismatch (A B : SquareMat) (h : A.size ≠ B.size) :
    A.operator_add B = Except.error Error.invalid_argument := by
  simp [SquareMat.operator_add, h]

theorem operator_sub_mismatch (A B : SquareMat) (h : A.size ≠ B.size) :
    A.operator_sub B = Except.error Error.invalid_argument := by
  simp [SquareMat.operator_sub, h]

theorem operator_mul_mismatch (A B : SquareMat) (h : A.size ≠ B.size) :
    A.operator_mul B = Except.error Error.invalid_argument := by
  simp [SquareMat.operator_mul, h]

theorem operator_mod_mismatch (A B : SquareMat) (h : A.size ≠ B.size) :
    A.operator_mod B = Except.error Error.invalid_argument := by
  simp [SquareMat.operator_mod, h]

theorem error_iff_of_ok {A B : SquareMat} {r : Result SquareMat}
    (hbad : A.size ≠ B.size → r = Except.error Error.invalid_argument)
    (hgood : A.size = B.size → ∃ R, r = Except.ok R ∧ R.size = A.size ∧ R.WF) :
    (r = Except.error Error.invalid_argument ↔ A.size ≠ B.size) ∧
      (A.size = B.size → ∃ R, r = Except.ok R ∧ R.size = A.size ∧ R.WF) := by
  refine ⟨⟨?_, hbad⟩, hgood⟩
  intro h heq
  obtain ⟨R, hR, -⟩ := hgood heq
  rw [hR] at h
  cases h

/-- C4: each of `A + B`, `A - B`, `A * B` and `A % B` throws `std::invalid_argument`
exactly when the sizes of `A` and `B` differ; when they are equal it returns a
matrix of that same size. -/
theorem binary_operators_fail_iff_size_mismatch (A B : SquareMat) (hA : A.WF) (_hB : B.WF) :
    ((A.operator_add B = Except.error Error.invalid_argument ↔ A.size ≠ B.size) ∧
      (A.size = B.size → ∃ R, A.operator_add B = Except.ok R ∧ R.size = A.size ∧ R.WF)) ∧
    ((A.operator_sub B = Except.error Error.invalid_argument ↔ A.size ≠ B.size) ∧
      (A.size = B.size → ∃ R, A.operator_sub B = Except.ok R ∧ R.size = A.size ∧ R.WF)) ∧
    ((A.operator_mul B = Except.error Error.invalid_argument ↔ A.size ≠ B.size) ∧
      (A.size = B.size → ∃ R, A.operator_mul B = Except.ok R ∧ R.size = A.size ∧ R.WF)) ∧
    ((A.operator_mod B = Except.error Error.invalid_argument ↔ A.size ≠ B.size) ∧
      (A.size = B.size → ∃ R, A.operator_mod B = Except.ok R ∧ R.size = A.size ∧ R.WF)) := by
  refine ⟨error_iff_of_ok (operator_add_mismatch A B) ?_,
    error_iff_of_ok (operator_sub_mismatch A B) ?_,
    error_iff_of_ok (operator_mul_mismatch A B) ?_,
    error_iff_of_ok (operator_mod_mismatch A B) ?_⟩
  · intro h
    obtain ⟨R, hR, hs, hwf, -⟩ := operator_add_spec A B hA h
    exact ⟨R, hR, hs, hwf⟩
  · intro h
    obtain ⟨R, hR, hs, hwf, -⟩ := operator_sub_spec A B hA h
    exact ⟨R, hR, hs, hwf⟩
  · intro h
    obtain ⟨R, hR, hs, hwf, -⟩ := operator_mul_spec A B hA h
    exact ⟨R, hR, hs, hwf⟩
  · intro h
    obtain ⟨R, hR, hs, hwf, -⟩ := operator_mod_spec A B hA h
    exact ⟨R, hR, hs, hwf⟩

theorem binary_operators_fail_iff_size_mismatch_witness :
    testM1.WF ∧ testZ3.WF ∧
    (((testM1.operator_add testZ3 = Except.error Error.invalid_argument ↔
        testM1.size ≠ testZ3.size) ∧
      (testM1.size = testZ3.size →
        ∃ R, testM1.operator_add testZ3 = Except.ok R ∧ R.size = testM1.size ∧ R.WF)) ∧
    ((testM1.operator_sub testZ3 = Except.error Error.invalid_argument ↔
        testM1.size ≠ testZ3.size) ∧
      (testM1.size = testZ3.size →
        ∃ R, testM1.operator_sub testZ3 = Except.ok R ∧ R.size = testM1.size ∧ R.WF)) ∧
    ((testM1.operator_mul testZ3 = Except.error Error.invalid_argument ↔
        testM1.size ≠ testZ3.size) ∧
      (testM1.size = testZ3.size →
        ∃ R, testM1.operator_mul testZ3 = Except.ok R ∧ R.size = testM1.size ∧ R.WF)) ∧
    ((testM1.operator_mod testZ3 = Except.error Error.invalid_argument ↔
        testM1.size ≠ testZ3.size) ∧
      (testM1.size = testZ3.size →
        ∃ R, testM1.operator_mod testZ3 = Except.ok R ∧ R.size = testM1.size ∧ R.WF))) :=
  ⟨by decide, by decide,
    binary_operators_fail_iff_size_mismatch testM1 testZ3 (by decide) (by decide)⟩

/-- C6: for `A` and `B` of the same size `n` and `i, j` in `[0, n)`, the product
satisfies `(A * B)[i][j] = sum over k in [0, n) of A[i][k] * B[k][j]`. -/
theorem matrix_product_entry (A B : SquareMat) (hA : A.WF) (_hB : B.WF)
    (h : A.size = B.size) :
    ∃ R, A.operator_mul B = Except.ok R ∧ R.size = A.size ∧
      ∀ i j, i < A.size → j < A.size →
        R.access (i : Int) (j : Int) =
          Except.ok (∑ k in Finset.range A.size, A.elem i k * B.elem k j) := by
  obtain ⟨R, hR, hs, -, he⟩ := operator_mul_spec A B hA h
  refine ⟨R, hR, hs, ?_⟩
  intro i j hi hj
  rw [access_spec R i j (by omega) (by omega), he i j hi hj]

theorem matrix_product_entry_witness :
    testM1.WF ∧ testM2.WF ∧ testM1.size = testM2.size ∧
    ∃ R, testM1.operator_mul testM2 = Except.ok R ∧ R.size = testM1.size ∧
      ∀ i j, i < testM1.size → j < testM1.size →
        R.access (i : Int) (j : Int) =
          Except.ok (∑ k in Finset.range testM1.size, testM1.elem i k * testM2.elem k j) :=
  ⟨by decide, by decide, by decide,
    matrix_product_entry testM1 testM2 (by decide) (by decide) (by decide)⟩

/-- C7: for `A` and `B` of the same size, `(A + B) - B` succeeds and is elementwise
equal to `A`. -/
theorem add_then_sub_cancels (A B : SquareMat) (hA : A.WF) (_hB : B.WF)
    (h : A.size = B.size) :
    ∃ S R, A.operator_add B = Except.ok S ∧ S.operator_sub B = Except.ok R ∧
      R.size = A.size ∧
      ∀ i j, i < A.size → j < A.size → R.elem i j = A.elem i j := by
  obtain ⟨S, hS, hSs, hSwf, hSe⟩ := operator_add_spec A B hA h
  obtain ⟨R, hR, hRs, -, hRe⟩ := operator_sub_spec S B hSwf (by rw [hSs]; exact h)
  refine ⟨S, R, hS, hR, by rw [hRs, hSs], ?_⟩
  intro i j hi hj
  rw [hRe i j (by omega) (by omega), hSe i j hi hj]
  ring

theorem add_then_sub_cancels_witness :
    testM1.WF ∧ testM2.WF ∧ testM1.size = testM2.size ∧
    ∃ S R, testM1.operator_add testM2 = Except.ok S ∧ S.operator_sub testM2 = Except.ok R ∧
      R.size = testM1.size ∧
      ∀ i j, i < testM1.size → j < testM1.size → R.elem i j = testM1.elem i j :=
  ⟨by decide, by decide, by decide,
    add_then_sub_cancels testM1 testM2 (by decide) (by decide) (by decide)⟩

/-- C8: for `A` of size `n` and `i, j` in `[0, n)`, `(~A)[i][j] = A[j][i]`, and `~A`
has size `n`. -/
theorem transpose_entry (A : SquareMat) (hA : A.WF) :
    ∃ R, A.operator_transpose = Except.ok R ∧ R.size = A.size ∧
      ∀ i j, i < A.size → j < A.size →
        R.access (i : Int) (j : Int) = Except.ok (A.elem j i) := by
  obtain ⟨R, hR, hs, -, he⟩ := operator_transpose_spec A hA
  refine ⟨R, hR, hs, ?_⟩
  intro i j hi hj
  rw [access_spec R i j (by omega) (by omega), he i j hi hj]

theorem transpose_entry_witness :
    testM1.WF ∧
    ∃ R, testM1.operator_transpose = Except.ok R ∧ R.size = testM1.size ∧
      ∀ i j, i < testM1.size → j < testM1.size →
        R.access (i : Int) (j : Int) = Except.ok (testM1.elem j i) :=
  ⟨by decide, transpose_entry testM1 (by decide)⟩

/-- C9: the transpose is an involution: `~(~A)` is elementwise equal to `A`. -/
theorem transpose_involution (A : SquareMat) (hA : A.WF) :
    ∃ T R, A.operator_transpose = Except.ok T ∧ T.operator_transpose = Except.ok R ∧
      R.size = A.size ∧
      ∀ i j, i < A.size → j < A.size → R.elem i j = A.elem i j := by
  obtain ⟨T, hT, hTs, hTwf, hTe⟩ := operator_transpose_spec A hA
  obtain ⟨R, hR, hRs, -, hRe⟩ := operator_transpose_spec T hTwf
  refine ⟨T, R, hT, hR, by rw [hRs, hTs], ?_⟩
  intro i j hi hj
  rw [hRe i j (by omega) (by omega), hTe j i hj hi]

theorem transpose_involution_witness :
    testM1.WF ∧
    ∃ T R, testM1.operator_transpose = Except.ok T ∧ T.operator_transpose = Except.ok R ∧
      R.size = testM1.size ∧
      ∀ i j, i < testM1.size → j < testM1.size → R.elem i j = testM1.elem i j :=
  ⟨by decide, transpose_involution testM1 (by decide)⟩

/-- C10: the identity is a two-sided unit of the matrix product: for `A` of size `n`,
`A * identity(n)` and `identity(n) * A` both succeed and are elementwise equal
to `A`. -/
theorem identity_is_two_sided_unit (A : SquareMat) (hA : A.WF) :
    ∃ E R L, SquareMat.identity (A.size : Int) = Except.ok E ∧
      A.operator_mul E = Except.ok R ∧ E.operator_mul A = Except.ok L ∧
      R.size = A.size ∧ L.size = A.size ∧
      ∀ i j, i < A.size → j < A.size →
        R.elem i j = A.elem i j ∧ L.elem i j = A.elem i j := by
  have hpos : (0 : Int) < (A.size : Int) := by have := hA.1; omega
  obtain ⟨E, hE, hEs, hEwf, hEe⟩ := identity_spec (A.size : Int) hpos
  have hEs' : E.size = A.size := by exact_mod_cast hEs
  obtain ⟨R, hR, hRs, -, hRe⟩ := operator_mul_spec A E hA hEs'.symm
  obtain ⟨L, hL, hLs, -, hLe⟩ := operator_mul_spec E A hEwf hEs'
  refine ⟨E, R, L, hE, hR, hL, hRs, by rw [hLs, hEs'], ?_⟩
  intro i j hi hj
  constructor
  · rw [hRe i j hi hj]
    have : ∀ k ∈ Finset.range A.size,
        A.elem i k * E.elem k j = if k = j then A.elem i j else 0 := by
      intro k hk
      have hk' : k < A.size := Finset.mem_range.mp hk
      rw [hEe k j (by omega) (by omega)]
      by_cases hkj : k = j
      · subst hkj; simp
      · simp [hkj]
    rw [Finset.sum_congr rfl this, Finset.sum_ite_eq']
    simp [hj]
  · rw [hLe i j (by omega) (by omega), hEs']
    have : ∀ k ∈ Finset.range A.size,
        E.elem i k * A.elem k j = if i = k then A.elem i j else 0 := by
      intro k hk
      have hk' : k < A.size := Finset.mem_range.mp hk
      rw [hEe i k (by omega) (by omega)]
      by_cases hik : i = k
      · subst hik; simp
      · simp [hik]
    rw [Finset.sum_congr rfl this, Finset.sum_ite_eq]
    simp [hi]

theorem identity_is_two_sided_unit_witness :
    testM1.WF ∧
    ∃ E R L, SquareMat.identity (testM1.size : Int) = Except.ok E ∧
      testM1.operator_mul E = Except.ok R ∧ E.operator_mul testM1 = Except.ok L ∧
      R.size = testM1.size ∧ L.size = testM1.size ∧
      ∀ i j, i < testM1.size → j < testM1.size →
        R.elem i j = testM1.elem i j ∧ L.elem i j = testM1.elem i j :=
  ⟨by decide, identity_is_two_sided_unit testM1 (by decide)⟩

/-! ## The determinant -/

theorem forLoopFrom_one {σ : Type} (n : Nat) (body : Nat → σ → σ) (s : σ) :
    forLoopFrom 1 (n + 1) body s = forLoop n (fun i => body (i + 1)) s := by
  simp only [forLoopFrom, forLoop, Nat.add_sub_cancel]
  rw [List.range'_eq_map_range, List.foldl_map]
  simp only [Nat.add_comm 1]

/-- The column index reached by `minor[i-1][col_index++]` after the columns below `c`. -/
theorem colLoop_spec {N : Nat} (src : Nat → ℚ) {r j : Nat} (hr : r < N) (hj : j < N + 1)
    (c : Nat) (hc : c ≤ N + 1) {g : Grid} (h : Dim N g) :
    (forLoop c (fun j2 (st : Grid × Nat) =>
        if j2 = j then st else (set2 st.1 r st.2 (src j2), st.2 + 1)) (g, 0)).2 =
        (if j < c then c - 1 else c) ∧
    Dim N (forLoop c (fun j2 (st : Grid × Nat) =>
        if j2 = j then st else (set2 st.1 r st.2 (src j2), st.2 + 1)) (g, 0)).1 ∧
    ∀ a b, get2 (forLoop c (fun j2 (st : Grid × Nat) =>
        if j2 = j then st else (set2 st.1 r st.2 (src j2), st.2 + 1)) (g, 0)).1 a b =
      if a = r ∧ b < (if j < c then c - 1 else c) then src (if b < j then b else b + 1)
      else get2 g a b := by
  induction c with
  | zero => simp [forLoop_zero, h]
  | succ c ih =>
    obtain ⟨hk, hd, hg⟩ := ih (Nat.le_of_succ_le hc)
    rw [forLoop_succ]
    by_cases hcj : c = j
    · subst hcj
      simp only [if_true]
      refine ⟨?_, hd, ?_⟩
      · rw [hk]; simp
      · intro a b
        rw [hg]; simp
    · simp only [if_neg hcj]
      have hkN : (forLoop c (fun j2 (st : Grid × Nat) =>
          if j2 = j then st else (set2 st.1 r st.2 (src j2), st.2 + 1)) (g, 0)).2 < N := by
        rw [hk]; split_ifs <;> omega
      refine ⟨?_, hd.set2 _ _ _, ?_⟩
      · rw [hk]; split_ifs <;> omega
      · intro a b
        rw [get2_set2 hd hr hkN, hg, hk]
        split_ifs <;> first | rfl | (exfalso; omega) | (congr 1; omega)

/-- The loops over `i` and `j2` of `determinantHelper` fill the minor for column `j`. -/
theorem minorLoop_spec {N : Nat} (mat : Grid) {j : Nat} (hj : j < N + 1)
    (c : Nat) (hc : c ≤ N) {g : Grid} (h : Dim N g) :
    Dim N (forLoop c (fun i m =>
        (forLoop (N + 1) (fun j2 (st : Grid × Nat) =>
          if j2 = j then st
          else (set2 st.1 (i + 1 - 1) st.2 (get2 mat (i + 1) j2), st.2 + 1)) (m, 0)).1) g) ∧
    ∀ a b, get2 (forLoop c (fun i m =>
        (forLoop (N + 1) (fun j2 (st : Grid × Nat) =>
          if j2 = j then st
          else (set2 st.1 (i + 1 - 1) st.2 (get2 mat (i + 1) j2), st.2 + 1)) (m, 0)).1) g) a b =
      if a < c ∧ b < N then get2 mat (a + 1) (if b < j then b else b + 1) else get2 g a b := by
  induction c with
  | zero => simp [forLoop_zero, h]
  | succ c ih =>
    obtain ⟨hd, hg⟩ := ih (Nat.le_of_succ_le hc)
    rw [forLoop_succ]
    obtain ⟨-, hd', hg'⟩ := colLoop_spec (fun j2 => get2 mat (c + 1) j2)
      (by omega : c + 1 - 1 < N) hj (N + 1) (Nat.le_refl _) hd
    refine ⟨hd', ?_⟩
    intro a b
    rw [hg', hg]
    simp only [if_pos hj, Nat.add_sub_cancel]
    split_ifs <;> first | rfl | (exfalso; omega) | (congr 1; omega)

theorem minorAlloc_dim (N : Nat) :
    Dim N (forLoop N (fun i m => m.set i (newRow N)) (newRows N)) := by
  have hrows : (newRows N).length = N := by simp [newRows]
  have hlen : (forLoop N (fun i m => m.set i (newRow N)) (newRows N)).length = N := by
    rw [forLoop_set_length (fun _ => newRow N)]
    exact hrows
  refine ⟨hlen, ?_⟩
  intro row hmem
  obtain ⟨k, hk, hk'⟩ := List.getElem_of_mem hmem
  have hkN : k < N := by rw [← hlen]; exact hk
  have h1 := forLoop_set_getElem? (fun _ => newRow N) (newRows N) N (by rw [hrows]) k
  rw [List.getElem?_eq_getElem hk, hk', if_pos hkN] at h1
  rw [Option.some.inj h1]
  simp [newRow]

theorem cofactorDet_congr (n : Nat) :
    ∀ f g : Nat → Nat → ℚ, (∀ a b, a < n → b < n → f a b = g a b) →
      cofactorDet n f = cofactorDet n g := by
  induction n using Nat.strong_induction_on with
  | _ n ih =>
    intro f g hfg
    match n, ih, hfg with
    | 0, _, _ => rfl
    | 1, _, hfg => simp only [cofactorDet]; exact hfg 0 0 (by omega) (by omega)
    | 2, _, hfg =>
      simp only [cofactorDet]
      rw [hfg 0 0 (by omega) (by omega), hfg 1 1 (by omega) (by omega),
        hfg 0 1 (by omega) (by omega), hfg 1 0 (by omega) (by omega)]
    | n + 3, ih, hfg =>
      simp only [cofactorDet]
      apply Finset.sum_congr rfl
      intro j hj
      have hj' : j < n + 3 := Finset.mem_range.mp hj
      rw [hfg 0 j (by omega) hj']
      congr 1
      apply ih (n + 2) (by omega)
      intro a b ha hb
      apply hfg
      · omega
      · split_ifs <;> omega

/-- The loop over the columns `j` of `determinantHelper`, the recursive call being `D`. -/
theorem detLoop_spec {N : Nat} (mat : Grid) (D : Grid → ℚ)
    (hD : ∀ g, D g = cofactorDet N (get2 g))
    (c : Nat) (hc : c ≤ N + 1) {g0 : Grid} (h : Dim N g0) :
    (forLoop c (fun j (st : ℚ × Int × Grid) =>
        (st.1 + (st.2.1 : ℚ) * get2 mat 0 j * D (forLoop N (fun i m =>
            (forLoop (N + 1) (fun j2 (st : Grid × Nat) =>
              if j2 = j then st
              else (set2 st.1 (i + 1 - 1) st.2 (get2 mat (i + 1) j2), st.2 + 1)) (m, 0)).1)
            st.2.2),
          - st.2.1,
          forLoop N (fun i m =>
            (forLoop (N + 1) (fun j2 (st : Grid × Nat) =>
              if j2 = j then st
              else (set2 st.1 (i + 1 - 1) st.2 (get2 mat (i + 1) j2), st.2 + 1)) (m, 0)).1)
            st.2.2)) (0, 1, g0)).1 =
        ∑ j in Finset.range c, (-1) ^ j * get2 mat 0 j *
          cofactorDet N (fun a b => get2 mat (a + 1) (if b < j then b else b + 1)) ∧
    (forLoop c (fun j (st : ℚ × Int × Grid) =>
        (st.1 + (st.2.1 : ℚ) * get2 mat 0 j * D (forLoop N (fun i m =>
            (forLoop (N + 1) (fun j2 (st : Grid × Nat) =>
              if j2 = j then st
              else (set2 st.1 (i + 1 - 1) st.2 (get2 mat (i + 1) j2), st.2 + 1)) (m, 0)).1)
            st.2.2),
          - st.2.1,
          forLoop N (fun i m =>
            (forLoop (N + 1) (fun j2 (st : Grid × Nat) =>
              if j2 = j then st
              else (set2 st.1 (i + 1 - 1) st.2 (get2 mat (i + 1) j2), st.2 + 1)) (m, 0)).1)
            st.2.2)) (0, 1, g0)).2.1 = (-1) ^ c ∧
    Dim N (forLoop c (fun j (st : ℚ × Int × Grid) =>
        (st.1 + (st.2.1 : ℚ) * get2 mat 0 j * D (forLoop N (fun i m =>
            (forLoop (N + 1) (fun j2 (st : Grid × Nat) =>
              if j2 = j then st
              else (set2 st.1 (i + 1 - 1) st.2 (get2 mat (i + 1) j2), st.2 + 1)) (m, 0)).1)
            st.2.2),
          - st.2.1,
          forLoop N (fun i m =>
            (forLoop (N + 1) (fun j2 (st : Grid × Nat) =>
              if j2 = j then st
              else (set2 st.1 (i + 1 - 1) st.2 (get2 mat (i + 1) j2), st.2 + 1)) (m, 0)).1)
            st.2.2)) (0, 1, g0)).2.2 := by
  induction c with
  | zero => simp [forLoop_zero, h]
  | succ c ih =>
    obtain ⟨h1, h2, h3⟩ := ih (Nat.le_of_succ_le hc)
    rw [forLoop_succ]
    obtain ⟨hd, hg⟩ := minorLoop_spec mat (by omega : c < N + 1) N (Nat.le_refl N) h3
    refine ⟨?_, ?_, hd⟩
    · simp only []
      rw [h1, h2, Finset.sum_range_succ, hD]
      congr 1
      rw [cofactorDet_congr N _
        (fun a b => get2 mat (a + 1) (if b < c then b else b + 1))]
      · push_cast; ring
      · intro a b ha hb
        rw [hg]
        simp [ha, hb]
    · simp only []
      rw [h2, pow_succ]
      ring

theorem determinantHelper_eq_cofactorDet (n : Nat) :
    ∀ mat : Grid, determinantHelper n mat = cofactorDet n (get2 mat) := by
  induction n using Nat.strong_induction_on with
  | _ n ih =>
    intro mat
    match n, ih with
    | 0, _ => rfl
    | 1, _ => rfl
    | 2, _ => rfl
    | n + 3, ih =>
      rw [determinantHelper]
      simp only [forLoopFrom_one]
      exact (detLoop_spec mat (determinantHelper (n + 2)) (ih (n + 2) (by omega))
        (n + 3) (Nat.le_refl _) (minorAlloc_dim (n + 2))).1

theorem cofactorDet_eq_det (n : Nat) :
    ∀ f : Nat → Nat → ℚ,
      cofactorDet (n + 1) f = Matrix.det (Matrix.of (fun (a b : Fin (n + 1)) => f a b)) := by
  induction n with
  | zero =>
    intro f
    simp [cofactorDet, Matrix.det_fin_one]
  | succ n ih =>
    intro f
    cases n with
    | zero =>
      simp [cofactorDet, Matrix.det_fin_two]
    | succ n =>
      rw [cofactorDet, Matrix.det_succ_row_zero, Finset.sum_range]
      apply Finset.sum_congr rfl
      intro j _
      rw [ih]
      congr 1
      congr 1
      ext a b
      simp only [Matrix.of_apply, Matrix.submatrix_apply, Fin.val_succ]
      congr 1
      unfold Fin.succAbove
      split_ifs with h1 h2 h2
      · rfl
      · exfalso; apply h2; simpa [Fin.lt_def] using h1
      · exfalso; apply h1; simpa [Fin.lt_def] using h2
      · rfl

theorem get2_deleteRowCol (mat : Grid) (j a b : Nat) :
    get2 (deleteRowCol mat j) a b = get2 mat (a + 1) (if b < j then b else b + 1) := by
  simp only [get2_eq, deleteRowCol, List.getElem?_map, List.getElem?_drop]
  rw [Nat.add_comm 1 a]
  cases mat[a + 1]? with
  | none => simp
  | some row =>
    simp only [Option.map_some', Option.getD_some, List.getElem?_eraseIdx]
    split_ifs <;> rfl

theorem operator_det_eq_det (A : SquareMat) (n : Nat) (hn : A.size = n + 1) :
    A.operator_det = Matrix.det (A.toMatrix (n + 1)) := by
  unfold SquareMat.operator_det
  rw [hn, determinantHelper_eq_cofactorDet, cofactorDet_eq_det]
  rfl

theorem deleteRowCol_dim {n : Nat} {mat : Grid} (h : Dim (n + 1) mat) {j : Nat}
    (hj : j < n + 1) : Dim n (deleteRowCol mat j) := by
  refine ⟨by simp [deleteRowCol, h.1], ?_⟩
  intro row hrow
  simp only [deleteRowCol, List.mem_map] at hrow
  obtain ⟨r, hr, rfl⟩ := hrow
  have hlen : r.length = n + 1 := h.2 r (List.mem_of_mem_drop hr)
  rw [List.length_eraseIdx, if_pos (by omega), hlen]
  rfl

theorem leibniz_of_size (A : SquareMat) (n : Nat) (hn : A.size = n + 1) :
    A.operator_det = ∑ σ : Equiv.Perm (Fin (n + 1)),
      ((Equiv.Perm.sign σ : ℤ) : ℚ) * ∏ i : Fin (n + 1), A.elem i (σ i) := by
  rw [operator_det_eq_det A n hn, ← Matrix.det_transpose, Matrix.det_apply']
  rfl

/-- C11: the determinant `!A` is the cofactor expansion along the first row: `A[0][0]`
for size 1, `A[0][0]*A[1][1] - A[0][1]*A[1][0]` for size 2, and for size `n >= 3` the
sum over `j` in `[0, n)` of `(-1)^j * A[0][j] * det(M_j)`, where `M_j`, of `n-1` rows
and columns, is `A` with row 0 and column `j` deleted and `det` is the same function. -/
theorem determinant_first_row_expansion (A : SquareMat) (hA : A.WF) :
    (A.size = 1 → A.operator_det = A.elem 0 0) ∧
    (A.size = 2 →
      A.operator_det = A.elem 0 0 * A.elem 1 1 - A.elem 0 1 * A.elem 1 0) ∧
    (3 ≤ A.size →
      (∀ j, j < A.size → Dim (A.size - 1) (deleteRowCol A.matrix j)) ∧
      A.operator_det = ∑ j in Finset.range A.size,
        (-1) ^ j * A.elem 0 j * determinantHelper (A.size - 1) (deleteRowCol A.matrix j)) := by
  refine ⟨?_, ?_, ?_⟩
  · intro h
    simp only [SquareMat.operator_det, h]
    rfl
  · intro h
    simp only [SquareMat.operator_det, h]
    rfl
  · intro h
    obtain ⟨n, hn⟩ : ∃ n, A.size = n + 3 := ⟨A.size - 3, by omega⟩
    constructor
    · intro j hj
      have hd : Dim (n + 2 + 1) A.matrix := by
        have := WF.dim hA
        rwa [hn] at this
      rw [hn]
      exact deleteRowCol_dim hd (by omega)
    · simp only [SquareMat.operator_det, hn, Nat.add_sub_cancel]
      rw [determinantHelper_eq_cofactorDet, cofactorDet]
      apply Finset.sum_congr rfl
      intro j _
      have : (n + 3 - 1) = n + 2 := by omega
      rw [this, determinantHelper_eq_cofactorDet]
      congr 1
      congr 1
      funext a b
      rw [get2_deleteRowCol]

theorem determinant_first_row_expansion_witness :
    testM3.WF ∧
    ((testM3.size = 1 → testM3.operator_det = testM3.elem 0 0) ∧
    (testM3.size = 2 →
      testM3.operator_det =
        testM3.elem 0 0 * testM3.elem 1 1 - testM3.elem 0 1 * testM3.elem 1 0) ∧
    (3 ≤ testM3.size →
      (∀ j, j < testM3.size → Dim (testM3.size - 1) (deleteRowCol testM3.matrix j)) ∧
      testM3.operator_det = ∑ j in Finset.range testM3.size,
        (-1) ^ j * testM3.elem 0 j *
          determinantHelper (testM3.size - 1) (deleteRowCol testM3.matrix j))) :=
  ⟨by decide, determinant_first_row_expansion testM3 (by decide)⟩

/-- C12: for every matrix `A` of size `n >= 1`, `!A` is the determinant of `A`: the sum
over the permutations `p` of `[0, n)` of `sign(p)` times the product of the `A[i][p(i)]`. -/
theorem determinant_eq_leibniz_sum (A : SquareMat) (hA : A.WF) :
    A.operator_det = ∑ σ : Equiv.Perm (Fin A.size),
      ((Equiv.Perm.sign σ : ℤ) : ℚ) * ∏ i : Fin A.size, A.elem i (σ i) := by
  obtain ⟨mat, size⟩ := A
  obtain ⟨n, rfl⟩ : ∃ n, size = n + 1 := ⟨size - 1, by have := hA.1; simp at this; omega⟩
  exact leibniz_of_size _ n rfl

theorem determinant_eq_leibniz_sum_witness :
    testM3.WF ∧
    testM3.operator_det = ∑ σ : Equiv.Perm (Fin testM3.size),
      ((Equiv.Perm.sign σ : ℤ) : ℚ) * ∏ i : Fin testM3.size, testM3.elem i (σ i) :=
  ⟨by decide, determinant_eq_leibniz_sum testM3 (by decide)⟩

/-- C13: for every size `n >= 1`, the determinant of `identity(n)` is `1.0`. -/
theorem determinant_identity (n : Int) (hn : 1 ≤ n) :
    ∃ E, SquareMat.identity n = Except.ok E ∧ E.operator_det = 1 := by
  obtain ⟨E, hE, hs, -, he⟩ := identity_spec n (by omega)
  refine ⟨E, hE, ?_⟩
  obtain ⟨k, hk⟩ : ∃ k : Nat, E.size = k + 1 := ⟨E.size - 1, by omega⟩
  rw [operator_det_eq_det E k hk]
  have : E.toMatrix (k + 1) = 1 := by
    ext i j
    simp only [SquareMat.toMatrix, Matrix.of_apply, Matrix.one_apply]
    rw [he i j (by omega) (by omega)]
    simp [Fin.ext_iff]
  rw [this, Matrix.det_one]

theorem determinant_identity_witness :
    (1 : Int) ≤ 3 ∧ ∃ E, SquareMat.identity 3 = Except.ok E ∧ E.operator_det = 1 :=
  ⟨by decide, determinant_identity 3 (by decide)⟩

/-- C14: a matrix of size `n >= 2` with two identical rows `p != q` has determinant 0. -/
theorem determinant_identical_rows (A : SquareMat) (hA : A.WF) (p q : Nat)
    (hp : p < A.size) (hq : q < A.size) (hpq : p ≠ q)
    (hrows : ∀ j, j < A.size → A.elem p j = A.elem q j) :
    A.operator_det = 0 := by
  obtain ⟨k, hk⟩ : ∃ k : Nat, A.size = k + 1 := ⟨A.size - 1, by have := hA.1; omega⟩
  rw [operator_det_eq_det A k hk]
  have hp' : p < k + 1 := by omega
  have hq' : q < k + 1 := by omega
  apply Matrix.det_zero_of_row_eq (show (⟨p, hp'⟩ : Fin (k + 1)) ≠ ⟨q, hq'⟩ from
    fun h => hpq (Fin.mk.inj h))
  funext j
  simp only [SquareMat.toMatrix, Matrix.of_apply]
  exact hrows j (by omega)

theorem testRows_rows_eq : ∀ j, j < testRows.size → testRows.elem 0 j = testRows.elem 1 j := by
  intro j hj
  have hj2 : j < 2 := hj
  interval_cases j <;> rfl

theorem determinant_identical_rows_witness :
    testRows.WF ∧ 0 < testRows.size ∧ 1 < testRows.size ∧ (0 : Nat) ≠ 1 ∧
    (∀ j, j < testRows.size → testRows.elem 0 j = testRows.elem 1 j) ∧
    testRows.operator_det = 0 :=
  ⟨by decide, by decide, by decide, by decide, testRows_rows_eq,
    determinant_identical_rows testRows (by decide) 0 1 (by decide) (by decide) (by decide)
      testRows_rows_eq⟩

/-! ## The power operator -/

theorem elem_eq_of_toMatrix_eq {n : Nat} {P Q : SquareMat}
    (h : P.toMatrix n = Q.toMatrix n) (i j : Nat) (hi : i < n) (hj : j < n) :
    P.elem i j = Q.elem i j := by
  have := congrFun (congrFun h ⟨i, hi⟩) ⟨j, hj⟩
  simpa [SquareMat.toMatrix] using this

theorem toMatrix_eq_of_elem_eq {n : Nat} {P Q : SquareMat}
    (h : ∀ i j, i < n → j < n → P.elem i j = Q.elem i j) :
    P.toMatrix n = Q.toMatrix n := by
  ext i j
  simp only [SquareMat.toMatrix, Matrix.of_apply]
  exact h i j i.2 j.2

theorem toMatrix_mul_of_elem {n : Nat} {A B R : SquareMat}
    (h : ∀ i j, i < n → j < n →
      R.elem i j = ∑ k in Finset.range n, A.elem i k * B.elem k j) :
    R.toMatrix n = A.toMatrix n * B.toMatrix n := by
  ext i j
  simp only [SquareMat.toMatrix, Matrix.of_apply, Matrix.mul_apply]
  rw [h i j i.2 j.2, Finset.sum_range]

theorem copy_spec (A : SquareMat) (hA : A.WF) :
    A.copy.WF ∧ A.copy.size = A.size ∧
      ∀ i j, i < A.size → j < A.size → A.copy.elem i j = A.elem i j := by
  obtain ⟨hd, hg⟩ := allocLoop_spec A.size (fun i j => get2 A.matrix i j)
  exact ⟨⟨hA.1, hd.1, hd.2⟩, rfl, fun i j hi hj => hg i j hi hj⟩

theorem operator_mul_assign_spec (R A : SquareMat) (hR : R.WF) (h : R.size = A.size) :
    ∃ R', R.operator_mul_assign A = Except.ok R' ∧ R'.WF ∧ R'.size = R.size ∧
      ∀ i j, i < R.size → j < R.size →
        R'.elem i j = ∑ k in Finset.range R.size, R.elem i k * A.elem k j := by
  obtain ⟨T, hT, -, -, hTe⟩ := operator_mul_spec R A hR h
  obtain ⟨hd, hg⟩ := fillLoop_spec (fun i j => get2 T.matrix i j) R.size (Nat.le_refl _)
    (WF.dim hR)
  unfold SquareMat.operator_mul_assign
  rw [if_neg (not_not.mpr h), hT]
  refine ⟨_, rfl, ⟨hR.1, hd.1, hd.2⟩, rfl, ?_⟩
  intro i j hi hj
  simp only [SquareMat.elem]
  rw [hg]
  simp only [hi, hj, and_self, if_true]
  exact hTe i j hi hj

theorem powLoop_spec (A : SquareMat) (p : Nat) :
    ∀ (fuel : Nat) (R : SquareMat), p ≤ fuel → R.WF → R.size = A.size →
      ∃ P, powLoop A fuel (p : Int) R = some (Except.ok P) ∧ P.WF ∧ P.size = A.size ∧
        P.toMatrix A.size = R.toMatrix A.size * (A.toMatrix A.size) ^ p := by
  induction p with
  | zero =>
    intro fuel R _ hR hs
    refine ⟨R, ?_, hR, hs, by simp⟩
    cases fuel <;> simp [powLoop]
  | succ p ih =>
    intro fuel R hf hR hs
    obtain ⟨f, rfl⟩ : ∃ f, fuel = f + 1 := ⟨fuel - 1, by omega⟩
    obtain ⟨R', hR', hwf, hs', he⟩ := operator_mul_assign_spec R A hR hs
    obtain ⟨P, hP, hPwf, hPs, hPm⟩ := ih f R' (by omega) hwf (by rw [hs', hs])
    refine ⟨P, ?_, hPwf, hPs, ?_⟩
    · have hne : ((p + 1 : Nat) : Int) ≠ 0 := by omega
      have hsub : ((p + 1 : Nat) : Int) - 1 = (p : Int) := by omega
      rw [powLoop, if_pos hne, hR']
      simp only [hsub]
      exact hP
    · rw [hPm, toMatrix_mul_of_elem (A := R) (B := A) (R := R') (by rw [← hs]; exact he),
        pow_succ', mul_assoc]

theorem powLoop_out_of_fuel (A : SquareMat) (fuel : Nat) :
    ∀ (p : Nat) (R : SquareMat), fuel < p → R.WF → R.size = A.size →
      powLoop A fuel (p : Int) R = none := by
  induction fuel with
  | zero =>
    intro p R hp _ _
    have hne : (p : Int) ≠ 0 := by omega
    simp [powLoop, hne]
  | succ f ih =>
    intro p R hp hR hs
    obtain ⟨R', hR', hwf, hs', -⟩ := operator_mul_assign_spec R A hR hs
    have hne : (p : Int) ≠ 0 := by omega
    obtain ⟨p', rfl⟩ : ∃ p', p = p' + 1 := ⟨p - 1, by omega⟩
    have hsub : ((p' + 1 : Nat) : Int) - 1 = (p' : Int) := by omega
    rw [powLoop, if_pos hne, hR']
    simp only [hsub]
    exact ih p' R' (by omega) hwf (by rw [hs', hs])

theorem identity_toMatrix {n : Nat} {E : SquareMat}
    (he : ∀ i j, i < n → j < n → E.elem i j = if i = j then 1 else 0) :
    E.toMatrix n = 1 := by
  ext i j
  simp only [SquareMat.toMatrix, Matrix.of_apply, Matrix.one_apply]
  rw [he i j i.2 j.2]
  simp [Fin.ext_iff]

theorem operator_pow_spec (A : SquareMat) (hA : A.WF) (p fuel : Nat) (hf : p - 1 ≤ fuel) :
    ∃ P, A.operator_pow fuel (p : Int) = some (Except.ok P) ∧ P.WF ∧ P.size = A.size ∧
      P.toMatrix A.size = (A.toMatrix A.size) ^ p := by
  unfold SquareMat.operator_pow
  rw [if_neg (by omega)]
  match p, hf with
  | 0, _ =>
    obtain ⟨E, hE, hs, hwf, he⟩ := identity_spec (A.size : Int) (by have := hA.1; omega)
    have hs' : E.size = A.size := by exact_mod_cast hs
    refine ⟨E, by simp [hE], hwf, hs', ?_⟩
    rw [pow_zero]
    exact identity_toMatrix (fun i j hi hj => he i j (by omega) (by omega))
  | 1, _ =>
    obtain ⟨hwf, hs, he⟩ := copy_spec A hA
    refine ⟨A.copy, by simp, hwf, hs, ?_⟩
    rw [pow_one]
    exact toMatrix_eq_of_elem_eq he
  | p + 2, hf =>
    obtain ⟨hwf, hs, he⟩ := copy_spec A hA
    obtain ⟨P, hP, hPwf, hPs, hPm⟩ := powLoop_spec A (p + 1) fuel A.copy (by omega) hwf hs
    have h0 : ¬ (((p + 2 : Nat) : Int) = 0) := by omega
    have h1 : ¬ (((p + 2 : Nat) : Int) = 1) := by omega
    have hsub : ((p + 2 : Nat) : Int) - 1 = ((p + 1 : Nat) : Int) := by omega
    rw [if_neg h0, if_neg h1, hsub]
    refine ⟨P, hP, hPwf, hPs, ?_⟩
    rw [hPm, toMatrix_eq_of_elem_eq he, ← pow_succ']

theorem operator_pow_int_spec (A : SquareMat) (hA : A.WF) (p : Int) (hp : 0 ≤ p)
    (fuel : Nat) (hf : p.toNat - 1 ≤ fuel) :
    ∃ P, A.operator_pow fuel p = some (Except.ok P) ∧ P.WF ∧ P.size = A.size ∧
      P.toMatrix A.size = (A.toMatrix A.size) ^ p.toNat := by
  obtain ⟨n, rfl⟩ := Int.eq_ofNat_of_zero_le hp
  exact operator_pow_spec A hA n fuel (by simpa using hf)

/-- C15: for every matrix `A` of size `n`, `A ^ 0` succeeds and is elementwise equal to
`identity(n)`, whatever the elements of `A` are. -/
theorem power_zero_is_identity (A : SquareMat) (hA : A.WF) (fuel : Nat) :
    ∃ P E, A.operator_pow fuel 0 = some (Except.ok P) ∧
      SquareMat.identity (A.size : Int) = Except.ok E ∧
      P.size = A.size ∧ E.size = A.size ∧
      ∀ i j, i < A.size → j < A.size →
        P.elem i j = E.elem i j ∧ P.elem i j = if i = j then 1 else 0 := by
  obtain ⟨E, hE, hs, -, he⟩ := identity_spec (A.size : Int) (by have := hA.1; omega)
  have hs' : E.size = A.size := by exact_mod_cast hs
  refine ⟨E, E, by simp [SquareMat.operator_pow, hE], hE, hs', hs', ?_⟩
  intro i j hi hj
  exact ⟨rfl, he i j (by omega) (by omega)⟩

theorem power_zero_is_identity_witness :
    testM1.WF ∧
    ∃ P E, testM1.operator_pow 0 0 = some (Except.ok P) ∧
      SquareMat.identity (testM1.size : Int) = Except.ok E ∧
      P.size = testM1.size ∧ E.size = testM1.size ∧
      ∀ i j, i < testM1.size → j < testM1.size →
        P.elem i j = E.elem i j ∧ P.elem i j = if i = j then 1 else 0 :=
  ⟨by decide, power_zero_is_identity testM1 (by decide) 0⟩

/-- C16: `A ^ 1` is elementwise equal to `A`; for every integer `k >= 1`, `A ^ (k+1)` is
elementwise equal to `(A ^ k) * A`; `A ^ p` for `p >= 2` takes exactly `p - 1` passes of
the multiplication loop (it ends within `p - 1` passes and not within `p - 2`); and
`A ^ 2` is elementwise equal to `A * A`. -/
theorem power_is_left_nested_product (A : SquareMat) (hA : A.WF) :
    (∀ fuel : Nat, ∃ P, A.operator_pow fuel 1 = some (Except.ok P) ∧ P.size = A.size ∧
      ∀ i j, i < A.size → j < A.size → P.elem i j = A.elem i j) ∧
    (∀ (k : Int) (fuel : Nat), 1 ≤ k → k.toNat ≤ fuel →
      ∃ Pk Pk1 Q, A.operator_pow fuel k = some (Except.ok Pk) ∧
        A.operator_pow fuel (k + 1) = some (Except.ok Pk1) ∧
        Pk.operator_mul A = Except.ok Q ∧ Pk1.size = A.size ∧ Q.size = A.size ∧
        ∀ i j, i < A.size → j < A.size → Pk1.elem i j = Q.elem i j) ∧
    (∀ p : Int, 2 ≤ p →
      (∃ P, A.operator_pow (p.toNat - 1) p = some (Except.ok P)) ∧
      A.operator_pow (p.toNat - 2) p = none) ∧
    (∀ fuel : Nat, 1 ≤ fuel →
      ∃ P Q, A.operator_pow fuel 2 = some (Except.ok P) ∧ A.operator_mul A = Except.ok Q ∧
        ∀ i j, i < A.size → j < A.size → P.elem i j = Q.elem i j) := by
  refine ⟨?_, ?_, ?_, ?_⟩
  · intro fuel
    obtain ⟨P, hP, -, hs, hm⟩ := operator_pow_int_spec A hA 1 (by omega) fuel (by simp)
    refine ⟨P, hP, hs, ?_⟩
    have hm' : P.toMatrix A.size = A.toMatrix A.size := by simpa using hm
    exact elem_eq_of_toMatrix_eq hm'
  · intro k fuel hk hf
    obtain ⟨Pk, hPk, hwf, hs, hm⟩ :=
      operator_pow_int_spec A hA k (by omega) fuel (by omega)
    obtain ⟨Pk1, hPk1, -, hs1, hm1⟩ :=
      operator_pow_int_spec A hA (k + 1) (by omega) fuel (by omega)
    obtain ⟨Q, hQ, hQs, -, hQe⟩ := operator_mul_spec Pk A hwf hs
    refine ⟨Pk, Pk1, Q, hPk, hPk1, hQ, hs1, by rw [hQs, hs], ?_⟩
    have hQm : Q.toMatrix A.size = Pk.toMatrix A.size * A.toMatrix A.size :=
      toMatrix_mul_of_elem (by rw [← hs]; exact hQe)
    have hk1 : (k + 1).toNat = k.toNat + 1 := by omega
    apply elem_eq_of_toMatrix_eq
    rw [hm1, hQm, hm, hk1, pow_succ]
  · intro p hp
    constructor
    · obtain ⟨P, hP, -⟩ := operator_pow_int_spec A hA p (by omega) (p.toNat - 1) (Nat.le_refl _)
      exact ⟨P, hP⟩
    · obtain ⟨n, rfl⟩ := Int.eq_ofNat_of_zero_le (by omega : 0 ≤ p)
      obtain ⟨hwf, hs, -⟩ := copy_spec A hA
      have h0 : ¬ ((n : Int) < 0) := by omega
      have h1 : ¬ ((n : Int) = 0) := by omega
      have h2 : ¬ ((n : Int) = 1) := by omega
      have hsub : (n : Int) - 1 = ((n - 1 : Nat) : Int) := by omega
      unfold SquareMat.operator_pow
      rw [if_neg h0, if_neg h1, if_neg h2, hsub]
      exact powLoop_out_of_fuel A _ (n - 1) A.copy (by simp; omega) hwf hs
  · intro fuel hf
    obtain ⟨P, hP, -, -, hm⟩ := operator_pow_int_spec A hA 2 (by omega) fuel (by simpa using hf)
    obtain ⟨Q, hQ, -, -, hQe⟩ := operator_mul_spec A A hA rfl
    refine ⟨P, Q, hP, hQ, ?_⟩
    apply elem_eq_of_toMatrix_eq
    rw [hm, toMatrix_mul_of_elem hQe]
    simp [pow_two]

/-- C17: `A ^ p` throws `std::invalid_argument` exactly when `p < 0`; for `p >= 0` the
multiplication loop ends (within `p` passes) and a matrix of the size of `A` is returned. -/
theorem power_fails_iff_negative (A : SquareMat) (hA : A.WF) (p : Int) (fuel : Nat)
    (hf : p.toNat ≤ fuel) :
    (A.operator_pow fuel p = some (Except.error Error.invalid_argument) ↔ p < 0) ∧
    (0 ≤ p → ∃ R, A.operator_pow fuel p = some (Except.ok R) ∧ R.size = A.size ∧ R.WF) := by
  have hpos : 0 ≤ p → ∃ R, A.operator_pow fuel p = some (Except.ok R) ∧
      R.size = A.size ∧ R.WF := by
    intro hp
    obtain ⟨P, hP, hwf, hs, -⟩ := operator_pow_int_spec A hA p hp fuel (by omega)
    exact ⟨P, hP, hs, hwf⟩
  refine ⟨⟨?_, ?_⟩, hpos⟩
  · intro h
    by_contra hp
    obtain ⟨R, hR, -⟩ := hpos (by omega)
    rw [hR] at h
    cases h
  · intro hp
    simp [SquareMat.operator_pow, hp]

theorem power_is_left_nested_product_witness :
    testM1.WF ∧
    ((∀ fuel : Nat, ∃ P, testM1.operator_pow fuel 1 = some (Except.ok P) ∧
      P.size = testM1.size ∧
      ∀ i j, i < testM1.size → j < testM1.size → P.elem i j = testM1.elem i j) ∧
    (∀ (k : Int) (fuel : Nat), 1 ≤ k → k.toNat ≤ fuel →
      ∃ Pk Pk1 Q, testM1.operator_pow fuel k = some (Except.ok Pk) ∧
        testM1.operator_pow fuel (k + 1) = some (Except.ok Pk1) ∧
        Pk.operator_mul testM1 = Except.ok Q ∧ Pk1.size = testM1.size ∧
        Q.size = testM1.size ∧
        ∀ i j, i < testM1.size → j < testM1.size → Pk1.elem i j = Q.elem i j) ∧
    (∀ p : Int, 2 ≤ p →
      (∃ P, testM1.operator_pow (p.toNat - 1) p = some (Except.ok P)) ∧
      testM1.operator_pow (p.toNat - 2) p = none) ∧
    (∀ fuel : Nat, 1 ≤ fuel →
      ∃ P Q, testM1.operator_pow fuel 2 = some (Except.ok P) ∧
        testM1.operator_mul testM1 = Except.ok Q ∧
        ∀ i j, i < testM1.size → j < testM1.size → P.elem i j = Q.elem i j)) :=
  ⟨by decide, power_is_left_nested_product testM1 (by decide)⟩

theorem power_fails_iff_negative_witness :
    testM1.WF ∧ (3 : Int).toNat ≤ 3 ∧
    ((testM1.operator_pow 3 3 = some (Except.error Error.invalid_argument) ↔ (3 : Int) < 0) ∧
    ((0 : Int) ≤ 3 →
      ∃ R, testM1.operator_pow 3 3 = some (Except.ok R) ∧ R.size = testM1.size ∧ R.WF)) :=
  ⟨by decide, by decide, power_fails_iff_negative testM1 (by decide) 3 3 (by decide)⟩

/-! ## The scalar modulo and the scalar division -/

theorem rowUpdate_spec {n : Nat} (u : Nat → ℚ → ℚ) {i : Nat} (hi : i < n) (c : Nat)
    (hc : c ≤ n) {g : Grid} (h : Dim n g) :
    Dim n (forLoop c (fun j m => set2 m i j (u j (get2 m i j))) g) ∧
      ∀ a b, get2 (forLoop c (fun j m => set2 m i j (u j (get2 m i j))) g) a b =
        if a = i ∧ b < c then u b (get2 g a b) else get2 g a b := by
  induction c with
  | zero => simp [forLoop_zero, h]
  | succ c ih =>
    obtain ⟨hd, hg⟩ := ih (Nat.le_of_succ_le hc)
    rw [forLoop_succ]
    refine ⟨hd.set2 _ _ _, ?_⟩
    intro a b
    rw [get2_set2 hd hi (by omega : c < n), hg, hg]
    by_cases hb : b = c
    · subst hb
      by_cases ha : a = i
      · subst ha; simp
      · simp [ha]
    · have h2 : (b < c + 1) ↔ (b < c) := by omega
      simp [hb, h2]

/-- Nested loops that read every cell and overwrite it in place with `u i j` of it. -/
theorem updateLoop_spec {n : Nat} (u : Nat → Nat → ℚ → ℚ) (c : Nat) (hc : c ≤ n)
    {g : Grid} (h : Dim n g) :
    Dim n (forLoop c (fun i m => forLoop n (fun j m => set2 m i j (u i j (get2 m i j))) m) g) ∧
      ∀ a b, get2 (forLoop c
          (fun i m => forLoop n (fun j m => set2 m i j (u i j (get2 m i j))) m) g) a b =
        if a < c ∧ b < n then u a b (get2 g a b) else get2 g a b := by
  induction c with
  | zero => simp [forLoop_zero, h]
  | succ c ih =>
    obtain ⟨hd, hg⟩ := ih (Nat.le_of_succ_le hc)
    rw [forLoop_succ]
    obtain ⟨hd', hg'⟩ := rowUpdate_spec (u c) (by omega : c < n) n (Nat.le_refl n) hd
    refine ⟨hd', ?_⟩
    intro a b
    rw [hg', hg]
    by_cases ha : a = c
    · subst ha
      by_cases hb : b < n <;> simp [hb]
    · have h2 : (a < c + 1) ↔ (a < c) := by omega
      simp [ha, h2]

theorem operator_mod_scalar_spec (A : SquareMat) (hA : A.WF) (s : Int) (hs : 0 < s) :
    ∃ R, A.operator_mod_scalar s = Except.ok R ∧ R.size = A.size ∧ R.WF ∧
      ∀ i j, i < A.size → j < A.size → R.elem i j = SquareMat.modulo (A.elem i j) s := by
  unfold SquareMat.operator_mod_scalar
  rw [if_neg (by omega)]
  exact fresh_fill_spec A.size hA.1 (fun i j => SquareMat.modulo (get2 A.matrix i j) s)

theorem operator_mod_scalar_assign_spec (A : SquareMat) (hA : A.WF) (s : Int) (hs : 0 < s) :
    ∃ R, A.operator_mod_scalar_assign s = Except.ok R ∧ R.size = A.size ∧ R.WF ∧
      ∀ i j, i < A.size → j < A.size → R.elem i j = SquareMat.modulo (A.elem i j) s := by
  obtain ⟨hd, hg⟩ := updateLoop_spec (fun _ _ x => SquareMat.modulo x s) A.size
    (Nat.le_refl _) (WF.dim hA)
  unfold SquareMat.operator_mod_scalar_assign
  rw [if_neg (by omega)]
  refine ⟨_, rfl, rfl, ⟨hA.1, hd.1, hd.2⟩, ?_⟩
  intro i j hi hj
  simp only [SquareMat.elem]
  rw [hg]
  simp [hi, hj]

theorem operator_div_spec (A : SquareMat) (hA : A.WF) (s : ℚ) (hs : s ≠ 0) :
    ∃ R, A.operator_div s = Except.ok R ∧ R.size = A.size ∧ R.WF ∧
      ∀ i j, i < A.size → j < A.size → R.elem i j = A.elem i j / s := by
  unfold SquareMat.operator_div
  rw [if_neg hs]
  exact fresh_fill_spec A.size hA.1 (fun i j => get2 A.matrix i j / s)

/-- C19: `A % s` and `A %= s` throw `std::invalid_argument` exactly when `s <= 0`; for
`s > 0` both succeed, with the same size and the elementwise modulo as elements. -/
theorem scalar_modulo_fails_iff_nonpositive (A : SquareMat) (hA : A.WF) (s : Int) :
    (A.operator_mod_scalar s = Except.error Error.invalid_argument ↔ s ≤ 0) ∧
    (A.operator_mod_scalar_assign s = Except.error Error.invalid_argument ↔ s ≤ 0) ∧
    (0 < s →
      (∃ R, A.operator_mod_scalar s = Except.ok R ∧ R.size = A.size ∧ R.WF ∧
        ∀ i j, i < A.size → j < A.size → R.elem i j = SquareMat.modulo (A.elem i j) s) ∧
      (∃ R, A.operator_mod_scalar_assign s = Except.ok R ∧ R.size = A.size ∧ R.WF ∧
        ∀ i j, i < A.size → j < A.size → R.elem i j = SquareMat.modulo (A.elem i j) s)) := by
  refine ⟨⟨?_, ?_⟩, ⟨?_, ?_⟩, ?_⟩
  · intro h
    by_contra hs
    obtain ⟨R, hR, -⟩ := operator_mod_scalar_spec A hA s (by omega)
    rw [hR] at h
    cases h
  · intro hs
    simp [SquareMat.operator_mod_scalar, hs]
  · intro h
    by_contra hs
    obtain ⟨R, hR, -⟩ := operator_mod_scalar_assign_spec A hA s (by omega)
    rw [hR] at h
    cases h
  · intro hs
    simp [SquareMat.operator_mod_scalar_assign, hs]
  · intro hs
    exact ⟨operator_mod_scalar_spec A hA s hs, operator_mod_scalar_assign_spec A hA s hs⟩

/-- C20: `A / s` throws `std::invalid_argument` exactly when `s == 0.0`; for every
`s != 0`, positive or negative, it succeeds and each element of the result is
`A[i][j] / s`. -/
theorem scalar_division_fails_iff_zero (A : SquareMat) (hA : A.WF) (s : ℚ) :
    (A.operator_div s = Except.error Error.invalid_argument ↔ s = 0) ∧
    (s ≠ 0 → ∃ R, A.operator_div s = Except.ok R ∧ R.size = A.size ∧
      ∀ i j, i < A.size → j < A.size → R.elem i j = A.elem i j / s) := by
  refine ⟨⟨?_, ?_⟩, ?_⟩
  · intro h
    by_contra hs
    obtain ⟨R, hR, -⟩ := operator_div_spec A hA s hs
    rw [hR] at h
    cases h
  · intro hs
    simp [SquareMat.operator_div, hs]
  · intro hs
    obtain ⟨R, hR, hsz, -, he⟩ := operator_div_spec A hA s hs
    exact ⟨R, hR, hsz, he⟩

theorem modulo_overflow_value : SquareMat.modulo (-3000000001) 3 = -4294967294 := by
  have hceil : ⌈(-3000000001 : ℚ) / ((3 : Int) : ℚ)⌉ = -1000000000 := by
    rw [Int.ceil_eq_iff]
    constructor <;> norm_num
  have hneg : ¬ ((0 : ℚ) ≤ (-3000000001 : ℚ) / ((3 : Int) : ℚ)) := by norm_num
  simp only [SquareMat.modulo, castToInt, if_neg hneg, hceil]
  norm_num [wrapInt32]

theorem scalar_modulo_fails_iff_nonpositive_witness :
    testMod.WF ∧
    ((testMod.operator_mod_scalar 3 = Except.error Error.invalid_argument ↔ (3 : Int) ≤ 0) ∧
    (testMod.operator_mod_scalar_assign 3 = Except.error Error.invalid_argument ↔
      (3 : Int) ≤ 0) ∧
    ((0 : Int) < 3 →
      (∃ R, testMod.operator_mod_scalar 3 = Except.ok R ∧ R.size = testMod.size ∧ R.WF ∧
        ∀ i j, i < testMod.size → j < testMod.size →
          R.elem i j = SquareMat.modulo (testMod.elem i j) 3) ∧
      (∃ R, testMod.operator_mod_scalar_assign 3 = Except.ok R ∧ R.size = testMod.size ∧
        R.WF ∧
        ∀ i j, i < testMod.size → j < testMod.size →
          R.elem i j = SquareMat.modulo (testMod.elem i j) 3))) :=
  ⟨by decide, scalar_modulo_fails_iff_nonpositive testMod (by decide) 3⟩

theorem scalar_division_fails_iff_zero_witness :
    testM1.WF ∧
    ((testM1.operator_div 2 = Except.error Error.invalid_argument ↔ (2 : ℚ) = 0) ∧
    ((2 : ℚ) ≠ 0 → ∃ R, testM1.operator_div 2 = Except.ok R ∧ R.size = testM1.size ∧
      ∀ i j, i < testM1.size → j < testM1.size → R.elem i j = testM1.elem i j / 2)) :=
  ⟨by decide, scalar_division_fails_iff_zero testM1 (by decide) 2⟩

/-- C18, failing input: for the matrix of size 1 with element `-3000000001.0` and the
scalar `3 > 0`, `A % 3` returns the element `-4294967294`, which is not in `[0, 3)`:
the quotient is in the range of `int` but three times the quotient is not. -/
theorem scalar_modulo_leaves_range_on_overflow :
    testOverflow.WF ∧ (0 : Int) < 3 ∧
    ∃ R, testOverflow.operator_mod_scalar 3 = Except.ok R ∧
      R.elem 0 0 = -4294967294 ∧ ¬ (0 ≤ R.elem 0 0 ∧ R.elem 0 0 < 3) := by
  obtain ⟨R, hR, -, -, he⟩ := operator_mod_scalar_spec testOverflow (by decide) 3 (by decide)
  have h00 : R.elem 0 0 = -4294967294 := by
    rw [he 0 0 (by decide) (by decide)]
    exact modulo_overflow_value
  refine ⟨by decide, by decide, R, hR, h00, ?_⟩
  rw [h00]
  norm_num

/-! ## The remaining operators: negation, scalar product, increments, in-place forms -/

/-- The receiver after loops that read every cell and overwrite it with `u i j` of it. -/
theorem inplace_update_spec (A : SquareMat) (hA : A.WF) (u : Nat → Nat → ℚ → ℚ) :
    (SquareMat.mk
      (forLoop A.size
        (fun i m => forLoop A.size (fun j m => set2 m i j (u i j (get2 m i j))) m)
        A.matrix)
      A.size).WF ∧
    ∀ i j, i < A.size → j < A.size →
      (SquareMat.mk
        (forLoop A.size
          (fun i m => forLoop A.size (fun j m => set2 m i j (u i j (get2 m i j))) m)
          A.matrix)
        A.size).elem i j = u i j (A.elem i j) := by
  obtain ⟨hd, hg⟩ := updateLoop_spec u A.size (Nat.le_refl _) (WF.dim hA)
  refine ⟨⟨hA.1, hd.1, hd.2⟩, ?_⟩
  intro i j hi hj
  simp only [SquareMat.elem]
  rw [hg]
  simp [hi, hj]

theorem operator_neg_spec (A : SquareMat) (hA : A.WF) :
    ∃ R, A.operator_neg = Except.ok R ∧ R.size = A.size ∧ R.WF ∧
      ∀ i j, i < A.size → j < A.size → R.elem i j = - A.elem i j := by
  unfold SquareMat.operator_neg
  exact fresh_fill_spec A.size hA.1 (fun i j => - get2 A.matrix i j)

theorem operator_mul_scalar_spec (A : SquareMat) (hA : A.WF) (s : ℚ) :
    ∃ R, A.operator_mul_scalar s = Except.ok R ∧ R.size = A.size ∧ R.WF ∧
      ∀ i j, i < A.size → j < A.size → R.elem i j = A.elem i j * s := by
  unfold SquareMat.operator_mul_scalar
  exact fresh_fill_spec A.size hA.1 (fun i j => get2 A.matrix i j * s)

theorem operator_pre_inc_spec (A : SquareMat) (hA : A.WF) :
    A.operator_pre_inc.WF ∧ A.operator_pre_inc.size = A.size ∧
      ∀ i j, i < A.size → j < A.size → A.operator_pre_inc.elem i j = A.elem i j + 1 := by
  obtain ⟨h1, h2⟩ := inplace_update_spec A hA (fun _ _ x => x + 1)
  exact ⟨h1, rfl, h2⟩

theorem operator_pre_dec_spec (A : SquareMat) (hA : A.WF) :
    A.operator_pre_dec.WF ∧ A.operator_pre_dec.size = A.size ∧
      ∀ i j, i < A.size → j < A.size → A.operator_pre_dec.elem i j = A.elem i j - 1 := by
  obtain ⟨h1, h2⟩ := inplace_update_spec A hA (fun _ _ x => x - 1)
  exact ⟨h1, rfl, h2⟩

theorem operator_add_assign_call_spec (A B : SquareMat) (hA : A.WF) (h : A.size = B.size) :
    (A.operator_add_assign_call B).thrown = none ∧
    (A.operator_add_assign_call B).receiver.WF ∧
    (A.operator_add_assign_call B).receiver.size = A.size ∧
    ∀ i j, i < A.size → j < A.size →
      (A.operator_add_assign_call B).receiver.elem i j = A.elem i j + B.elem i j := by
  obtain ⟨h1, h2⟩ := inplace_update_spec A hA (fun i j x => x + get2 B.matrix i j)
  unfold SquareMat.operator_add_assign_call
  rw [if_neg (not_not.mpr h)]
  exact ⟨rfl, h1, rfl, h2⟩

theorem operator_sub_assign_call_spec (A B : SquareMat) (hA : A.WF) (h : A.size = B.size) :
    (A.operator_sub_assign_call B).thrown = none ∧
    (A.operator_sub_assign_call B).receiver.WF ∧
    (A.operator_sub_assign_call B).receiver.size = A.size ∧
    ∀ i j, i < A.size → j < A.size →
      (A.operator_sub_assign_call B).receiver.elem i j = A.elem i j - B.elem i j := by
  obtain ⟨h1, h2⟩ := inplace_update_spec A hA (fun i j x => x - get2 B.matrix i j)
  unfold SquareMat.operator_sub_assign_call
  rw [if_neg (not_not.mpr h)]
  exact ⟨rfl, h1, rfl, h2⟩

theorem operator_mod_assign_call_spec (A B : SquareMat) (hA : A.WF) (h : A.size = B.size) :
    (A.operator_mod_assign_call B).thrown = none ∧
    (A.operator_mod_assign_call B).receiver.WF ∧
    (A.operator_mod_assign_call B).receiver.size = A.size ∧
    ∀ i j, i < A.size → j < A.size →
      (A.operator_mod_assign_call B).receiver.elem i j = A.elem i j * B.elem i j := by
  obtain ⟨h1, h2⟩ := inplace_update_spec A hA (fun i j x => x * get2 B.matrix i j)
  unfold SquareMat.operator_mod_assign_call
  rw [if_neg (not_not.mpr h)]
  exact ⟨rfl, h1, rfl, h2⟩

theorem operator_mul_scalar_assign_call_spec (A : SquareMat) (hA : A.WF) (s : ℚ) :
    (A.operator_mul_scalar_assign_call s).thrown = none ∧
    (A.operator_mul_scalar_assign_call s).receiver.WF ∧
    (A.operator_mul_scalar_assign_call s).receiver.size = A.size ∧
    ∀ i j, i < A.size → j < A.size →
      (A.operator_mul_scalar_assign_call s).receiver.elem i j = A.elem i j * s := by
  obtain ⟨h1, h2⟩ := inplace_update_spec A hA (fun _ _ x => x * s)
  exact ⟨rfl, h1, rfl, h2⟩

theorem operator_mod_scalar_assign_call_spec (A : SquareMat) (hA : A.WF) (k : Int)
    (hk : 0 < k) :
    (A.operator_mod_scalar_assign_call k).thrown = none ∧
    (A.operator_mod_scalar_assign_call k).receiver.WF ∧
    (A.operator_mod_scalar_assign_call k).receiver.size = A.size ∧
    ∀ i j, i < A.size → j < A.size →
      (A.operator_mod_scalar_assign_call k).receiver.elem i j =
        SquareMat.modulo (A.elem i j) k := by
  obtain ⟨h1, h2⟩ := inplace_update_spec A hA (fun _ _ x => SquareMat.modulo x k)
  unfold SquareMat.operator_mod_scalar_assign_call
  rw [if_neg (by omega)]
  exact ⟨rfl, h1, rfl, h2⟩

theorem operator_div_assign_call_spec (A : SquareMat) (hA : A.WF) (s : ℚ) (hs : s ≠ 0) :
    (A.operator_div_assign_call s).thrown = none ∧
    (A.operator_div_assign_call s).receiver.WF ∧
    (A.operator_div_assign_call s).receiver.size = A.size ∧
    ∀ i j, i < A.size → j < A.size →
      (A.operator_div_assign_call s).receiver.elem i j = A.elem i j / s := by
  obtain ⟨h1, h2⟩ := inplace_update_spec A hA (fun _ _ x => x / s)
  unfold SquareMat.operator_div_assign_call
  rw [if_neg hs]
  exact ⟨rfl, h1, rfl, h2⟩

theorem operator_mul_assign_call_spec (A B : SquareMat) (hA : A.WF) (h : A.size = B.size) :
    (A.operator_mul_assign_call B).thrown = none ∧
    (A.operator_mul_assign_call B).receiver.WF ∧
    (A.operator_mul_assign_call B).receiver.size = A.size ∧
    ∀ i j, i < A.size → j < A.size →
      (A.operator_mul_assign_call B).receiver.elem i j =
        ∑ k in Finset.range A.size, A.elem i k * B.elem k j := by
  obtain ⟨T, hT, -, -, hTe⟩ := operator_mul_spec A B hA h
  obtain ⟨hd, hg⟩ := fillLoop_spec (fun i j => get2 T.matrix i j) A.size (Nat.le_refl _)
    (WF.dim hA)
  unfold SquareMat.operator_mul_assign_call
  rw [if_neg (not_not.mpr h), hT]
  refine ⟨rfl, ⟨hA.1, hd.1, hd.2⟩, rfl, ?_⟩
  intro i j hi hj
  simp only [SquareMat.elem]
  rw [hg]
  simp only [hi, hj, and_self, if_true]
  exact hTe i j hi hj

/-- The two embeddings of `operator*=` agree. -/
theorem operator_mul_assign_call_agrees (A B : SquareMat) :
    A.operator_mul_assign B =
      match (A.operator_mul_assign_call B).thrown with
      | some e => Except.error e
      | none => Except.ok (A.operator_mul_assign_call B).receiver := by
  unfold SquareMat.operator_mul_assign SquareMat.operator_mul_assign_call
  by_cases h : A.size ≠ B.size
  · simp [h]
  · rw [if_neg h, if_neg h]
    cases A.operator_mul B <;> rfl

/-- The two embeddings of `operator%=(int)` agree. -/
theorem operator_mod_scalar_assign_call_agrees (A : SquareMat) (k : Int) :
    A.operator_mod_scalar_assign k =
      match (A.operator_mod_scalar_assign_call k).thrown with
      | some e => Except.error e
      | none => Except.ok (A.operator_mod_scalar_assign_call k).receiver := by
  unfold SquareMat.operator_mod_scalar_assign SquareMat.operator_mod_scalar_assign_call
  by_cases h : k ≤ 0
  · simp [h]
  · rw [if_neg h, if_neg h]
    rfl

theorem elemCount_of_rows (n : Nat) :
    ∀ g : Grid, (∀ row ∈ g, row.length = n) → (g.map List.length).sum = g.length * n := by
  intro g
  induction g with
  | nil => simp
  | cons r g ih =>
    intro h
    rw [List.map_cons, List.sum_cons, ih (fun row hr => h row (List.mem_cons_of_mem _ hr)),
      h r (List.mem_cons_self _ _), List.length_cons]
    ring

theorem WF.elemCount {m : SquareMat} (h : m.WF) : m.elemCount = m.size * m.size := by
  unfold SquareMat.elemCount
  rw [elemCount_of_rows m.size m.matrix h.2.2, h.2.1]

theorem keepsSize_of {r a : SquareMat} (h : r.WF) (hs : r.size = a.size) : r.KeepsSize a :=
  ⟨h, WF.elemCount h, hs⟩

/-- C21, failing input: `m1 / -2.0`, a division by a negative scalar, does not throw; it
returns the matrix of rows `[-0.5, -1]` and `[-1.5, -2]`. -/
theorem division_by_negative_scalar_succeeds :
    testM1.WF ∧ (-2 : ℚ) < 0 ∧
    testM1.operator_div (-2) ≠ Except.error Error.invalid_argument ∧
    ∃ R, testM1.operator_div (-2) = Except.ok R ∧ R.size = 2 ∧
      R.elem 0 0 = -1 / 2 ∧ R.elem 0 1 = -1 ∧ R.elem 1 0 = -3 / 2 ∧ R.elem 1 1 = -2 := by
  obtain ⟨R, hR, hs, -, he⟩ := operator_div_spec testM1 (by decide) (-2) (by norm_num)
  refine ⟨by decide, by norm_num, ?_, R, hR, hs, ?_, ?_, ?_, ?_⟩
  · rw [hR]; intro h; cases h
  · rw [he 0 0 (by decide) (by decide)]; norm_num [SquareMat.elem, testM1, get2]
  · rw [he 0 1 (by decide) (by decide)]; norm_num [SquareMat.elem, testM1, get2]
  · rw [he 1 0 (by decide) (by decide)]; norm_num [SquareMat.elem, testM1, get2]
  · rw [he 1 1 (by decide) (by decide)]; norm_num [SquareMat.elem, testM1, get2]

/-- C23: `A++` returns a matrix elementwise equal to `A` before the call and leaves the
receiver with every element increased by 1; `++A` leaves, and returns, the receiver with
every element increased by 1; `A--` and `--A` do the same with 1 subtracted. -/
theorem increment_and_decrement (A : SquareMat) (hA : A.WF) :
    (A.operator_post_inc.1.size = A.size ∧ A.operator_post_inc.2.size = A.size ∧
      ∀ i j, i < A.size → j < A.size →
        A.operator_post_inc.1.elem i j = A.elem i j ∧
        A.operator_post_inc.2.elem i j = A.elem i j + 1) ∧
    (A.operator_pre_inc.size = A.size ∧
      ∀ i j, i < A.size → j < A.size → A.operator_pre_inc.elem i j = A.elem i j + 1) ∧
    (A.operator_post_dec.1.size = A.size ∧ A.operator_post_dec.2.size = A.size ∧
      ∀ i j, i < A.size → j < A.size →
        A.operator_post_dec.1.elem i j = A.elem i j ∧
        A.operator_post_dec.2.elem i j = A.elem i j - 1) ∧
    (A.operator_pre_dec.size = A.size ∧
      ∀ i j, i < A.size → j < A.size → A.operator_pre_dec.elem i j = A.elem i j - 1) := by
  obtain ⟨-, hcs, hce⟩ := copy_spec A hA
  obtain ⟨-, his, hie⟩ := operator_pre_inc_spec A hA
  obtain ⟨-, hds, hde⟩ := operator_pre_dec_spec A hA
  exact ⟨⟨hcs, his, fun i j hi hj => ⟨hce i j hi hj, hie i j hi hj⟩⟩, ⟨his, hie⟩,
    ⟨hcs, hds, fun i j hi hj => ⟨hce i j hi hj, hde i j hi hj⟩⟩, ⟨hds, hde⟩⟩

theorem increment_and_decrement_witness :
    testM1.WF ∧
    ((testM1.operator_post_inc.1.size = testM1.size ∧ testM1.operator_post_inc.2.size = testM1.size ∧
      ∀ i j, i < testM1.size → j < testM1.size →
        testM1.operator_post_inc.1.elem i j = testM1.elem i j ∧
        testM1.operator_post_inc.2.elem i j = testM1.elem i j + 1) ∧
    (testM1.operator_pre_inc.size = testM1.size ∧
      ∀ i j, i < testM1.size → j < testM1.size → testM1.operator_pre_inc.elem i j = testM1.elem i j + 1) ∧
    (testM1.operator_post_dec.1.size = testM1.size ∧ testM1.operator_post_dec.2.size = testM1.size ∧
      ∀ i j, i < testM1.size → j < testM1.size →
        testM1.operator_post_dec.1.elem i j = testM1.elem i j ∧
        testM1.operator_post_dec.2.elem i j = testM1.elem i j - 1) ∧
    (testM1.operator_pre_dec.size = testM1.size ∧
      ∀ i j, i < testM1.size → j < testM1.size → testM1.operator_pre_dec.elem i j = testM1.elem i j - 1)) :=
  ⟨by decide, increment_and_decrement testM1 (by decide)⟩

theorem agrees_of_ok {c : InPlace} {r : Result SquareMat} {R : SquareMat} {f : Nat → Nat → ℚ}
    (hr : r = Except.ok R) (ht : c.thrown = none) (hs : c.receiver.size = R.size)
    (hc : ∀ i j, i < R.size → j < R.size → c.receiver.elem i j = f i j)
    (hR : ∀ i j, i < R.size → j < R.size → R.elem i j = f i j) : c.Agrees r := by
  rw [hr]
  exact ⟨ht, hs, fun i j hi hj => by rw [hc i j hi hj, hR i j hi hj]⟩

theorem agrees_of_error {c : InPlace} {r : Result SquareMat} {e : Error}
    (hr : r = Except.error e) (ht : c.thrown = some e) : c.Agrees r := by
  rw [hr]
  exact ht

/-- C24: each in-place operator agrees with its binary counterpart: it throws exactly
when the binary form throws, and the same exception; otherwise the receiver after
`A += B`, `A -= B`, `A *= B`, `A *= s`, `A %= B`, `A %= k`, `A /= s` has the size and the
elements of `A + B`, `A - B`, `A * B`, `A * s`, `A % B`, `A % k`, `A / s`. -/
theorem in_place_agrees_with_binary (A B : SquareMat) (hA : A.WF) (_hB : B.WF)
    (s : ℚ) (k : Int) :
    (A.operator_add_assign_call B).Agrees (A.operator_add B) ∧
    (A.operator_sub_assign_call B).Agrees (A.operator_sub B) ∧
    (A.operator_mul_assign_call B).Agrees (A.operator_mul B) ∧
    (A.operator_mul_scalar_assign_call s).Agrees (A.operator_mul_scalar s) ∧
    (A.operator_mod_assign_call B).Agrees (A.operator_mod B) ∧
    (A.operator_mod_scalar_assign_call k).Agrees (A.operator_mod_scalar k) ∧
    (A.operator_div_assign_call s).Agrees (A.operator_div s) := by
  refine ⟨?_, ?_, ?_, ?_, ?_, ?_, ?_⟩
  · by_cases h : A.size = B.size
    · obtain ⟨R, hR, hs, -, he⟩ := operator_add_spec A B hA h
      obtain ⟨ht, -, hcs, hce⟩ := operator_add_assign_call_spec A B hA h
      rw [← hs] at he hce
      exact agrees_of_ok hR ht (by rw [hcs, hs]) hce he
    · exact agrees_of_error (operator_add_mismatch A B h)
        (by simp [SquareMat.operator_add_assign_call, h])
  · by_cases h : A.size = B.size
    · obtain ⟨R, hR, hs, -, he⟩ := operator_sub_spec A B hA h
      obtain ⟨ht, -, hcs, hce⟩ := operator_sub_assign_call_spec A B hA h
      rw [← hs] at he hce
      exact agrees_of_ok hR ht (by rw [hcs, hs]) hce he
    · exact agrees_of_error (operator_sub_mismatch A B h)
        (by simp [SquareMat.operator_sub_assign_call, h])
  · by_cases h : A.size = B.size
    · obtain ⟨R, hR, hs, -, he⟩ := operator_mul_spec A B hA h
      obtain ⟨ht, -, hcs, hce⟩ := operator_mul_assign_call_spec A B hA h
      rw [← hs] at he hce
      exact agrees_of_ok hR ht (by rw [hcs, hs]) hce he
    · exact agrees_of_error (operator_mul_mismatch A B h)
        (by simp [SquareMat.operator_mul_assign_call, h])
  · obtain ⟨R, hR, hs, -, he⟩ := operator_mul_scalar_spec A hA s
    obtain ⟨ht, -, hcs, hce⟩ := operator_mul_scalar_assign_call_spec A hA s
    rw [← hs] at he hce
    exact agrees_of_ok hR ht (by rw [hcs, hs]) hce he
  · by_cases h : A.size = B.size
    · obtain ⟨R, hR, hs, -, he⟩ := operator_mod_spec A B hA h
      obtain ⟨ht, -, hcs, hce⟩ := operator_mod_assign_call_spec A B hA h
      rw [← hs] at he hce
      exact agrees_of_ok hR ht (by rw [hcs, hs]) hce he
    · exact agrees_of_error (operator_mod_mismatch A B h)
        (by simp [SquareMat.operator_mod_assign_call, h])
  · by_cases h : 0 < k
    · obtain ⟨R, hR, hs, -, he⟩ := operator_mod_scalar_spec A hA k h
      obtain ⟨ht, -, hcs, hce⟩ := operator_mod_scalar_assign_call_spec A hA k h
      rw [← hs] at he hce
      exact agrees_of_ok hR ht (by rw [hcs, hs]) hce he
    · have hk : k ≤ 0 := by omega
      exact agrees_of_error (e := Error.invalid_argument)
        (by simp [SquareMat.operator_mod_scalar, hk])
        (by simp [SquareMat.operator_mod_scalar_assign_call, hk])
  · by_cases h : s = 0
    · exact agrees_of_error (e := Error.invalid_argument)
        (by simp [SquareMat.operator_div, h])
        (by simp [SquareMat.operator_div_assign_call, h])
    · obtain ⟨R, hR, hs, -, he⟩ := operator_div_spec A hA s h
      obtain ⟨ht, -, hcs, hce⟩ := operator_div_assign_call_spec A hA s h
      rw [← hs] at he hce
      exact agrees_of_ok hR ht (by rw [hcs, hs]) hce he

/-- C25: a rejected in-place operation leaves the receiver as it was: when `A += B`,
`A -= B`, `A *= B` or `A %= B` throws because the sizes differ, when `A %= k` throws
because `k <= 0`, and when `A /= s` throws because `s == 0.0`, the receiver at the end
of the call is `A`, with the size and every element it had before. -/
theorem rejected_in_place_is_atomic (A B : SquareMat) (k : Int) (s : ℚ) :
    (A.size ≠ B.size →
      ((A.operator_add_assign_call B).thrown = some Error.invalid_argument ∧
        (A.operator_add_assign_call B).receiver = A) ∧
      ((A.operator_sub_assign_call B).thrown = some Error.invalid_argument ∧
        (A.operator_sub_assign_call B).receiver = A) ∧
      ((A.operator_mul_assign_call B).thrown = some Error.invalid_argument ∧
        (A.operator_mul_assign_call B).receiver = A) ∧
      ((A.operator_mod_assign_call B).thrown = some Error.invalid_argument ∧
        (A.operator_mod_assign_call B).receiver = A)) ∧
    (k ≤ 0 →
      (A.operator_mod_scalar_assign_call k).thrown = some Error.invalid_argument ∧
        (A.operator_mod_scalar_assign_call k).receiver = A) ∧
    (s = 0 →
      (A.operator_div_assign_call s).thrown = some Error.invalid_argument ∧
        (A.operator_div_assign_call s).receiver = A) ∧
    (∀ e,
      ((A.operator_add_assign_call B).thrown = some e →
        (A.operator_add_assign_call B).receiver = A) ∧
      ((A.operator_sub_assign_call B).thrown = some e →
        (A.operator_sub_assign_call B).receiver = A) ∧
      ((A.operator_mul_assign_call B).thrown = some e →
        (A.operator_mul_assign_call B).receiver = A) ∧
      ((A.operator_mod_assign_call B).thrown = some e →
        (A.operator_mod_assign_call B).receiver = A) ∧
      ((A.operator_mod_scalar_assign_call k).thrown = some e →
        (A.operator_mod_scalar_assign_call k).receiver = A) ∧
      ((A.operator_div_assign_call s).thrown = some e →
        (A.operator_div_assign_call s).receiver = A)) := by
  refine ⟨?_, ?_, ?_, ?_⟩
  · intro h
    simp [SquareMat.operator_add_assign_call, SquareMat.operator_sub_assign_call,
      SquareMat.operator_mul_assign_call, SquareMat.operator_mod_assign_call, h]
  · intro h
    simp [SquareMat.operator_mod_scalar_assign_call, h]
  · intro h
    simp [SquareMat.operator_div_assign_call, h]
  · intro e
    refine ⟨?_, ?_, ?_, ?_, ?_, ?_⟩
    · unfold SquareMat.operator_add_assign_call
      split_ifs <;> simp
    · unfold SquareMat.operator_sub_assign_call
      split_ifs <;> simp
    · unfold SquareMat.operator_mul_assign_call
      split_ifs
      · simp
      · cases A.operator_mul B <;> simp
    · unfold SquareMat.operator_mod_assign_call
      split_ifs <;> simp
    · unfold SquareMat.operator_mod_scalar_assign_call
      split_ifs <;> simp
    · unfold SquareMat.operator_div_assign_call
      split_ifs <;> simp

theorem in_place_agrees_with_binary_witness :
    testM1.WF ∧ testM2.WF ∧
    ((testM1.operator_add_assign_call testM2).Agrees (testM1.operator_add testM2) ∧
    (testM1.operator_sub_assign_call testM2).Agrees (testM1.operator_sub testM2) ∧
    (testM1.operator_mul_assign_call testM2).Agrees (testM1.operator_mul testM2) ∧
    (testM1.operator_mul_scalar_assign_call 2).Agrees (testM1.operator_mul_scalar 2) ∧
    (testM1.operator_mod_assign_call testM2).Agrees (testM1.operator_mod testM2) ∧
    (testM1.operator_mod_scalar_assign_call 3).Agrees (testM1.operator_mod_scalar 3) ∧
    (testM1.operator_div_assign_call 2).Agrees (testM1.operator_div 2)) :=
  ⟨by decide, by decide,
    in_place_agrees_with_binary testM1 testM2 (by decide) (by decide) 2 3⟩

theorem rejected_in_place_is_atomic_witness :
    (testM1.size ≠ testZ3.size →
      ((testM1.operator_add_assign_call testZ3).thrown = some Error.invalid_argument ∧
        (testM1.operator_add_assign_call testZ3).receiver = testM1) ∧
      ((testM1.operator_sub_assign_call testZ3).thrown = some Error.invalid_argument ∧
        (testM1.operator_sub_assign_call testZ3).receiver = testM1) ∧
      ((testM1.operator_mul_assign_call testZ3).thrown = some Error.invalid_argument ∧
        (testM1.operator_mul_assign_call testZ3).receiver = testM1) ∧
      ((testM1.operator_mod_assign_call testZ3).thrown = some Error.invalid_argument ∧
        (testM1.operator_mod_assign_call testZ3).receiver = testM1)) ∧
    ((-2) ≤ 0 →
      (testM1.operator_mod_scalar_assign_call (-2)).thrown = some Error.invalid_argument ∧
        (testM1.operator_mod_scalar_assign_call (-2)).receiver = testM1) ∧
    ((0 : ℚ) = 0 →
      (testM1.operator_div_assign_call (0 : ℚ)).thrown = some Error.invalid_argument ∧
        (testM1.operator_div_assign_call (0 : ℚ)).receiver = testM1) ∧
    (∀ e,
      ((testM1.operator_add_assign_call testZ3).thrown = some e →
        (testM1.operator_add_assign_call testZ3).receiver = testM1) ∧
      ((testM1.operator_sub_assign_call testZ3).thrown = some e →
        (testM1.operator_sub_assign_call testZ3).receiver = testM1) ∧
      ((testM1.operator_mul_assign_call testZ3).thrown = some e →
        (testM1.operator_mul_assign_call testZ3).receiver = testM1) ∧
      ((testM1.operator_mod_assign_call testZ3).thrown = some e →
        (testM1.operator_mod_assign_call testZ3).receiver = testM1) ∧
      ((testM1.operator_mod_scalar_assign_call (-2)).thrown = some e →
        (testM1.operator_mod_scalar_assign_call (-2)).receiver = testM1) ∧
      ((testM1.operator_div_assign_call (0 : ℚ)).thrown = some e →
        (testM1.operator_div_assign_call (0 : ℚ)).receiver = testM1)) :=
  rejected_in_place_is_atomic testM1 testZ3 (-2) 0

/-! ## The size invariant -/

theorem operator_pow_out_of_fuel (A : SquareMat) (hA : A.WF) (p : Int) (fuel : Nat)
    (hp : 2 ≤ p) (hf : fuel < p.toNat - 1) : A.operator_pow fuel p = none := by
  obtain ⟨n, rfl⟩ := Int.eq_ofNat_of_zero_le (by omega : 0 ≤ p)
  obtain ⟨hwf, hs, -⟩ := copy_spec A hA
  have h0 : ¬ ((n : Int) < 0) := by omega
  have h1 : ¬ ((n : Int) = 0) := by omega
  have h2 : ¬ ((n : Int) = 1) := by omega
  have hsub : (n : Int) - 1 = ((n - 1 : Nat) : Int) := by omega
  unfold SquareMat.operator_pow
  rw [if_neg h0, if_neg h1, if_neg h2, hsub]
  exact powLoop_out_of_fuel A fuel (n - 1) A.copy (by simpa using hf) hwf hs

theorem keepsSize_of_spec {r : Result SquareMat} {a : SquareMat}
    (h : (∃ R, r = Except.ok R ∧ R.size = a.size ∧ R.WF) ∨ ∃ e, r = Except.error e) :
    ∀ R, r = Except.ok R → R.KeepsSize a := by
  intro R hR
  rcases h with ⟨R', hR', hs, hwf⟩ | ⟨e, he⟩
  · rw [hR'] at hR
    cases hR
    exact keepsSize_of hwf hs
  · rw [he] at hR
    cases hR

theorem keepsSize_binary {r : Result SquareMat} {a b : SquareMat}
    (hgood : a.size = b.size → ∃ R, r = Except.ok R ∧ R.size = a.size ∧ R.WF)
    (hbad : a.size ≠ b.size → r = Except.error Error.invalid_argument) :
    ∀ R, r = Except.ok R → R.KeepsSize a ∧ R.KeepsSize b := by
  intro R hR
  by_cases h : a.size = b.size
  · obtain ⟨R', hR', hs, hwf⟩ := hgood h
    rw [hR'] at hR
    cases hR
    exact ⟨keepsSize_of hwf hs, keepsSize_of hwf (by rw [hs, h])⟩
  · rw [hbad h] at hR
    cases hR

theorem new_keeps (n : Int) :
    ∀ R, SquareMat.new n = Except.ok R →
      R.WF ∧ R.elemCount = R.size * R.size ∧ (R.size : Int) = n := by
  intro R hR
  by_cases h : 0 < n
  · obtain ⟨R', hR', hs, hwf, -⟩ := new_spec n h
    rw [hR'] at hR
    cases hR
    exact ⟨hwf, WF.elemCount hwf, hs⟩
  · have : n ≤ 0 := by omega
    simp [SquareMat.new, this] at hR

theorem identity_keeps (n : Int) :
    ∀ R, SquareMat.identity n = Except.ok R →
      R.WF ∧ R.elemCount = R.size * R.size ∧ (R.size : Int) = n := by
  intro R hR
  by_cases h : 0 < n
  · obtain ⟨R', hR', hs, hwf, -⟩ := identity_spec n h
    rw [hR'] at hR
    cases hR
    exact ⟨hwf, WF.elemCount hwf, hs⟩
  · have : n ≤ 0 := by omega
    simp [SquareMat.identity, this] at hR

theorem pow_keeps (A : SquareMat) (hA : A.WF) (p : Int) (fuel : Nat) :
    ∀ R, A.operator_pow fuel p = some (Except.ok R) → R.KeepsSize A := by
  intro R hR
  by_cases hp : p < 0
  · simp [SquareMat.operator_pow, hp] at hR
  · by_cases hf : p.toNat - 1 ≤ fuel
    · obtain ⟨P, hP, hwf, hs, -⟩ := operator_pow_int_spec A hA p (by omega) fuel hf
      rw [hP] at hR
      cases hR
      exact keepsSize_of hwf hs
    · rw [operator_pow_out_of_fuel A hA p fuel (by omega) (by omega)] at hR
      cases hR

theorem receiver_keeps {c : InPlace} {a : SquareMat} (ha : a.WF)
    (h : (c.receiver.WF ∧ c.receiver.size = a.size) ∨ c.receiver = a) :
    c.receiver.KeepsSize a := by
  rcases h with ⟨hwf, hs⟩ | h
  · exact keepsSize_of hwf hs
  · rw [h]
    exact keepsSize_of ha rfl

/-- C26: the size invariant is preserved by every operation: every matrix produced by
the constructor, `identity`, a copy or copy assignment, an arithmetic operator, the
transpose, the power, an increment or decrement, and every receiver after an in-place
operator, has `size >= 1` and exactly `size * size` elements in `size` rows of `size`,
and has the size of its matrix operands (of the requested size, for the constructor and
`identity`). -/
theorem size_invariant_preserved (A B : SquareMat) (hA : A.WF) (hB : B.WF)
    (n : Int) (s : ℚ) (k p : Int) (fuel : Nat) :
    ((∀ R, SquareMat.new n = Except.ok R →
        R.WF ∧ R.elemCount = R.size * R.size ∧ (R.size : Int) = n) ∧
      (∀ R, SquareMat.identity n = Except.ok R →
        R.WF ∧ R.elemCount = R.size * R.size ∧ (R.size : Int) = n) ∧
      A.copy.KeepsSize A ∧
      (A.operator_assign B false).KeepsSize B ∧
      (A.operator_assign A true).KeepsSize A) ∧
    ((∀ R, A.operator_add B = Except.ok R → R.KeepsSize A ∧ R.KeepsSize B) ∧
      (∀ R, A.operator_sub B = Except.ok R → R.KeepsSize A ∧ R.KeepsSize B) ∧
      (∀ R, A.operator_mul B = Except.ok R → R.KeepsSize A ∧ R.KeepsSize B) ∧
      (∀ R, A.operator_mod B = Except.ok R → R.KeepsSize A ∧ R.KeepsSize B)) ∧
    ((∀ R, A.operator_neg = Except.ok R → R.KeepsSize A) ∧
      (∀ R, A.operator_mul_scalar s = Except.ok R → R.KeepsSize A) ∧
      (∀ R, operator_mul_scalar_left s A = Except.ok R → R.KeepsSize A) ∧
      (∀ R, A.operator_mod_scalar k = Except.ok R → R.KeepsSize A) ∧
      (∀ R, A.operator_div s = Except.ok R → R.KeepsSize A) ∧
      (∀ R, A.operator_transpose = Except.ok R → R.KeepsSize A) ∧
      (∀ R, A.operator_pow fuel p = some (Except.ok R) → R.KeepsSize A)) ∧
    (A.operator_pre_inc.KeepsSize A ∧
      A.operator_post_inc.1.KeepsSize A ∧ A.operator_post_inc.2.KeepsSize A ∧
      A.operator_pre_dec.KeepsSize A ∧
      A.operator_post_dec.1.KeepsSize A ∧ A.operator_post_dec.2.KeepsSize A) ∧
    ((A.operator_add_assign_call B).receiver.KeepsSize A ∧
      (A.operator_sub_assign_call B).receiver.KeepsSize A ∧
      (A.operator_mul_assign_call B).receiver.KeepsSize A ∧
      (A.operator_mul_scalar_assign_call s).receiver.KeepsSize A ∧
      (A.operator_mod_assign_call B).receiver.KeepsSize A ∧
      (A.operator_mod_scalar_assign_call k).receiver.KeepsSize A ∧
      (A.operator_div_assign_call s).receiver.KeepsSize A) := by
  obtain ⟨hcw, hcs, -⟩ := copy_spec A hA
  obtain ⟨hbw, hbs, -⟩ := copy_spec B hB
  obtain ⟨hiw, his, -⟩ := operator_pre_inc_spec A hA
  obtain ⟨hdw, hds, -⟩ := operator_pre_dec_spec A hA
  refine ⟨⟨new_keeps n, identity_keeps n, keepsSize_of hcw hcs, keepsSize_of hbw hbs,
      keepsSize_of hA rfl⟩, ⟨?_, ?_, ?_, ?_⟩, ⟨?_, ?_, ?_, ?_, ?_, ?_, pow_keeps A hA p fuel⟩,
    ⟨keepsSize_of hiw his, keepsSize_of hcw hcs, keepsSize_of hiw his,
      keepsSize_of hdw hds, keepsSize_of hcw hcs, keepsSize_of hdw hds⟩,
    ⟨?_, ?_, ?_, ?_, ?_, ?_, ?_⟩⟩
  · refine keepsSize_binary (fun h => ?_) (operator_add_mismatch A B)
    obtain ⟨R, hR, hs, hwf, -⟩ := operator_add_spec A B hA h
    exact ⟨R, hR, hs, hwf⟩
  · refine keepsSize_binary (fun h => ?_) (operator_sub_mismatch A B)
    obtain ⟨R, hR, hs, hwf, -⟩ := operator_sub_spec A B hA h
    exact ⟨R, hR, hs, hwf⟩
  · refine keepsSize_binary (fun h => ?_) (operator_mul_mismatch A B)
    obtain ⟨R, hR, hs, hwf, -⟩ := operator_mul_spec A B hA h
    exact ⟨R, hR, hs, hwf⟩
  · refine keepsSize_binary (fun h => ?_) (operator_mod_mismatch A B)
    obtain ⟨R, hR, hs, hwf, -⟩ := operator_mod_spec A B hA h
    exact ⟨R, hR, hs, hwf⟩
  · obtain ⟨R, hR, hs, hwf, -⟩ := operator_neg_spec A hA
    exact keepsSize_of_spec (Or.inl ⟨R, hR, hs, hwf⟩)
  · obtain ⟨R, hR, hs, hwf, -⟩ := operator_mul_scalar_spec A hA s
    exact keepsSize_of_spec (Or.inl ⟨R, hR, hs, hwf⟩)
  · obtain ⟨R, hR, hs, hwf, -⟩ := operator_mul_scalar_spec A hA s
    exact keepsSize_of_spec (Or.inl ⟨R, hR, hs, hwf⟩)
  · by_cases hk : 0 < k
    · obtain ⟨R, hR, hs, hwf, -⟩ := operator_mod_scalar_spec A hA k hk
      exact keepsSize_of_spec (Or.inl ⟨R, hR, hs, hwf⟩)
    · have hk' : k ≤ 0 := by omega
      exact keepsSize_of_spec (Or.inr ⟨Error.invalid_argument,
        by simp [SquareMat.operator_mod_scalar, hk']⟩)
  · by_cases hs0 : s = 0
    · exact keepsSize_of_spec (Or.inr ⟨Error.invalid_argument,
        by simp [SquareMat.operator_div, hs0]⟩)
    · obtain ⟨R, hR, hs, hwf, -⟩ := operator_div_spec A hA s hs0
      exact keepsSize_of_spec (Or.inl ⟨R, hR, hs, hwf⟩)
  · obtain ⟨R, hR, hs, hwf, -⟩ := operator_transpose_spec A hA
    exact keepsSize_of_spec (Or.inl ⟨R, hR, hs, hwf⟩)
  · by_cases h : A.size = B.size
    · obtain ⟨-, hw, hs, -⟩ := operator_add_assign_call_spec A B hA h
      exact receiver_keeps hA (Or.inl ⟨hw, hs⟩)
    · exact receiver_keeps hA (Or.inr (by simp [SquareMat.operator_add_assign_call, h]))
  · by_cases h : A.size = B.size
    · obtain ⟨-, hw, hs, -⟩ := operator_sub_assign_call_spec A B hA h
      exact receiver_keeps hA (Or.inl ⟨hw, hs⟩)
    · exact receiver_keeps hA (Or.inr (by simp [SquareMat.operator_sub_assign_call, h]))
  · by_cases h : A.size = B.size
    · obtain ⟨-, hw, hs, -⟩ := operator_mul_assign_call_spec A B hA h
      exact receiver_keeps hA (Or.inl ⟨hw, hs⟩)
    · exact receiver_keeps hA (Or.inr (by simp [SquareMat.operator_mul_assign_call, h]))
  · obtain ⟨-, hw, hs, -⟩ := operator_mul_scalar_assign_call_spec A hA s
    exact receiver_keeps hA (Or.inl ⟨hw, hs⟩)
  · by_cases h : A.size = B.size
    · obtain ⟨-, hw, hs, -⟩ := operator_mod_assign_call_spec A B hA h
      exact receiver_keeps hA (Or.inl ⟨hw, hs⟩)
    · exact receiver_keeps hA (Or.inr (by simp [SquareMat.operator_mod_assign_call, h]))
  · by_cases hk : 0 < k
    · obtain ⟨-, hw, hs, -⟩ := operator_mod_scalar_assign_call_spec A hA k hk
      exact receiver_keeps hA (Or.inl ⟨hw, hs⟩)
    · have hk' : k ≤ 0 := by omega
      exact receiver_keeps hA
        (Or.inr (by simp [SquareMat.operator_mod_scalar_assign_call, hk']))
  · by_cases hs0 : s = 0
    · exact receiver_keeps hA (Or.inr (by simp [SquareMat.operator_div_assign_call, hs0]))
    · obtain ⟨-, hw, hs, -⟩ := operator_div_assign_call_spec A hA s hs0
      exact receiver_keeps hA (Or.inl ⟨hw, hs⟩)

theorem size_invariant_preserved_witness :
    testM1.WF ∧ testM2.WF ∧
    (((∀ R, SquareMat.new 2 = Except.ok R →
        R.WF ∧ R.elemCount = R.size * R.size ∧ (R.size : Int) = 2) ∧
      (∀ R, SquareMat.identity 2 = Except.ok R →
        R.WF ∧ R.elemCount = R.size * R.size ∧ (R.size : Int) = 2) ∧
      testM1.copy.KeepsSize testM1 ∧
      (testM1.operator_assign testM2 false).KeepsSize testM2 ∧
      (testM1.operator_assign testM1 true).KeepsSize testM1) ∧
    ((∀ R, testM1.operator_add testM2 = Except.ok R → R.KeepsSize testM1 ∧ R.KeepsSize testM2) ∧
      (∀ R, testM1.operator_sub testM2 = Except.ok R → R.KeepsSize testM1 ∧ R.KeepsSize testM2) ∧
      (∀ R, testM1.operator_mul testM2 = Except.ok R → R.KeepsSize testM1 ∧ R.KeepsSize testM2) ∧
      (∀ R, testM1.operator_mod testM2 = Except.ok R → R.KeepsSize testM1 ∧ R.KeepsSize testM2)) ∧
    ((∀ R, testM1.operator_neg = Except.ok R → R.KeepsSize testM1) ∧
      (∀ R, testM1.operator_mul_scalar 2 = Except.ok R → R.KeepsSize testM1) ∧
      (∀ R, operator_mul_scalar_left 2 testM1 = Except.ok R → R.KeepsSize testM1) ∧
      (∀ R, testM1.operator_mod_scalar 3 = Except.ok R → R.KeepsSize testM1) ∧
      (∀ R, testM1.operator_div 2 = Except.ok R → R.KeepsSize testM1) ∧
      (∀ R, testM1.operator_transpose = Except.ok R → R.KeepsSize testM1) ∧
      (∀ R, testM1.operator_pow 1 2 = some (Except.ok R) → R.KeepsSize testM1)) ∧
    (testM1.operator_pre_inc.KeepsSize testM1 ∧
      testM1.operator_post_inc.1.KeepsSize testM1 ∧ testM1.operator_post_inc.2.KeepsSize testM1 ∧
      testM1.operator_pre_dec.KeepsSize testM1 ∧
      testM1.operator_post_dec.1.KeepsSize testM1 ∧ testM1.operator_post_dec.2.KeepsSize testM1) ∧
    ((testM1.operator_add_assign_call testM2).receiver.KeepsSize testM1 ∧
      (testM1.operator_sub_assign_call testM2).receiver.KeepsSize testM1 ∧
      (testM1.operator_mul_assign_call testM2).receiver.KeepsSize testM1 ∧
      (testM1.operator_mul_scalar_assign_call 2).receiver.KeepsSize testM1 ∧
      (testM1.operator_mod_assign_call testM2).receiver.KeepsSize testM1 ∧
      (testM1.operator_mod_scalar_assign_call 3).receiver.KeepsSize testM1 ∧
      (testM1.operator_div_assign_call 2).receiver.KeepsSize testM1)) :=
  ⟨by decide, by decide,
    size_invariant_preserved testM1 testM2 (by decide) (by decide) 2 2 3 2 1⟩

/-! ## The modulo helper on the values of the test suite -/

/-- The values of the test `Modulo with scalar`: `5.5 mod 3 = 2.5`, `-2.5 mod 3 = 0.5` and
`-7.5 mod 3 = 1.5`. Dividend, quotient and difference are all exact in `double` here. -/
theorem modulo_test_values :
    SquareMat.modulo (11 / 2) 3 = 5 / 2 ∧ SquareMat.modulo (-5 / 2) 3 = 1 / 2 ∧
      SquareMat.modulo (-15 / 2) 3 = 3 / 2 := by
  have h1 : ⌊(11 / 2 : ℚ) / ((3 : Int) : ℚ)⌋ = 1 := by
    rw [Int.floor_eq_iff]; constructor <;> norm_num
  have h1' : (0 : ℚ) ≤ (11 / 2 : ℚ) / ((3 : Int) : ℚ) := by norm_num
  have h2 : ⌈(-5 / 2 : ℚ) / ((3 : Int) : ℚ)⌉ = 0 := by
    rw [Int.ceil_eq_iff]; constructor <;> norm_num
  have h2' : ¬ ((0 : ℚ) ≤ (-5 / 2 : ℚ) / ((3 : Int) : ℚ)) := by norm_num
  have h3 : ⌈(-15 / 2 : ℚ) / ((3 : Int) : ℚ)⌉ = -2 := by
    rw [Int.ceil_eq_iff]; constructor <;> norm_num
  have h3' : ¬ ((0 : ℚ) ≤ (-15 / 2 : ℚ) / ((3 : Int) : ℚ)) := by norm_num
  refine ⟨?_, ?_, ?_⟩
  · simp only [SquareMat.modulo, castToInt, if_pos h1', h1]
    norm_num [wrapInt32]
  · simp only [SquareMat.modulo, castToInt, if_neg h2', h2]
    norm_num [wrapInt32]
  · simp only [SquareMat.modulo, castToInt, if_neg h3', h3]
    norm_num [wrapInt32]

/-! ## Algebraic laws of the product, the power and the determinant -/

theorem operator_mul_toMatrix (A B : SquareMat) (hA : A.WF) (h : A.size = B.size) :
    ∃ R, A.operator_mul B = Except.ok R ∧ R.size = A.size ∧ R.WF ∧
      R.toMatrix A.size = A.toMatrix A.size * B.toMatrix A.size := by
  obtain ⟨R, hR, hs, hwf, he⟩ := operator_mul_spec A B hA h
  exact ⟨R, hR, hs, hwf, toMatrix_mul_of_elem he⟩

/-- C28: the matrix product is associative: for `A`, `B`, `C` of the same size,
`(A * B) * C` is elementwise equal to `A * (B * C)`. -/
theorem matrix_product_associative (A B C : SquareMat) (hA : A.WF) (hB : B.WF) (_hC : C.WF)
    (hAB : A.size = B.size) (hBC : B.size = C.size) :
    ∃ P L Q R, A.operator_mul B = Except.ok P ∧ P.operator_mul C = Except.ok L ∧
      B.operator_mul C = Except.ok Q ∧ A.operator_mul Q = Except.ok R ∧
      L.size = A.size ∧ R.size = A.size ∧
      ∀ i j, i < A.size → j < A.size → L.elem i j = R.elem i j := by
  obtain ⟨P, hP, hPs, hPw, hPm⟩ := operator_mul_toMatrix A B hA hAB
  obtain ⟨L, hL, hLs, -, hLm⟩ := operator_mul_toMatrix P C hPw (by rw [hPs, hAB, hBC])
  obtain ⟨Q, hQ, hQs, -, hQm⟩ := operator_mul_toMatrix B C hB hBC
  obtain ⟨R, hR, hRs, -, hRm⟩ := operator_mul_toMatrix A Q hA (by rw [hQs, hAB])
  refine ⟨P, L, Q, R, hP, hL, hQ, hR, by rw [hLs, hPs], hRs, ?_⟩
  apply elem_eq_of_toMatrix_eq
  rw [hPs] at hLm
  rw [← hAB] at hQm
  rw [hLm, hPm, hRm, hQm, mul_assoc]

theorem matrix_product_associative_witness :
    testM1.WF ∧ testM2.WF ∧ testSum10.WF ∧ testM1.size = testM2.size ∧
    testM2.size = testSum10.size ∧
    ∃ P L Q R, testM1.operator_mul testM2 = Except.ok P ∧
      P.operator_mul testSum10 = Except.ok L ∧
      testM2.operator_mul testSum10 = Except.ok Q ∧ testM1.operator_mul Q = Except.ok R ∧
      L.size = testM1.size ∧ R.size = testM1.size ∧
      ∀ i j, i < testM1.size → j < testM1.size → L.elem i j = R.elem i j :=
  ⟨by decide, by decide, by decide, by decide, by decide,
    matrix_product_associative testM1 testM2 testSum10 (by decide) (by decide) (by decide)
      (by decide) (by decide)⟩

/-- C29: the exponent law: for integers `m, n >= 0`, `A ^ (m + n)` is elementwise equal
to `(A ^ m) * (A ^ n)`. -/
theorem power_of_sum_is_product (A : SquareMat) (hA : A.WF) (m n : Int)
    (hm : 0 ≤ m) (hn : 0 ≤ n) (fuel : Nat) (hf : (m + n).toNat ≤ fuel) :
    ∃ S Pm Pn Q, A.operator_pow fuel (m + n) = some (Except.ok S) ∧
      A.operator_pow fuel m = some (Except.ok Pm) ∧
      A.operator_pow fuel n = some (Except.ok Pn) ∧
      Pm.operator_mul Pn = Except.ok Q ∧ S.size = A.size ∧ Q.size = A.size ∧
      ∀ i j, i < A.size → j < A.size → S.elem i j = Q.elem i j := by
  obtain ⟨S, hS, -, hSs, hSm⟩ := operator_pow_int_spec A hA (m + n) (by omega) fuel (by omega)
  obtain ⟨Pm, hPm, hPmw, hPms, hPmm⟩ := operator_pow_int_spec A hA m hm fuel (by omega)
  obtain ⟨Pn, hPn, -, hPns, hPnm⟩ := operator_pow_int_spec A hA n hn fuel (by omega)
  obtain ⟨Q, hQ, hQs, -, hQm⟩ := operator_mul_toMatrix Pm Pn hPmw (by rw [hPms, hPns])
  refine ⟨S, Pm, Pn, Q, hS, hPm, hPn, hQ, hSs, by rw [hQs, hPms], ?_⟩
  apply elem_eq_of_toMatrix_eq
  rw [hPms] at hQm
  have hmn : (m + n).toNat = m.toNat + n.toNat := by omega
  rw [hSm, hQm, hPmm, hPnm, hmn, pow_add]

theorem power_of_sum_is_product_witness :
    testM1.WF ∧ (0 : Int) ≤ 2 ∧ (0 : Int) ≤ 1 ∧ ((2 : Int) + 1).toNat ≤ 3 ∧
    ∃ S Pm Pn Q, testM1.operator_pow 3 (2 + 1) = some (Except.ok S) ∧
      testM1.operator_pow 3 2 = some (Except.ok Pm) ∧
      testM1.operator_pow 3 1 = some (Except.ok Pn) ∧
      Pm.operator_mul Pn = Except.ok Q ∧ S.size = testM1.size ∧ Q.size = testM1.size ∧
      ∀ i j, i < testM1.size → j < testM1.size → S.elem i j = Q.elem i j :=
  ⟨by decide, by decide, by decide, by decide,
    power_of_sum_is_product testM1 (by decide) 2 1 (by decide) (by decide) 3 (by decide)⟩

theorem operator_det_eq_det_size (A : SquareMat) (hA : A.WF) :
    A.operator_det = Matrix.det (A.toMatrix A.size) := by
  obtain ⟨mat, size⟩ := A
  obtain ⟨n, rfl⟩ : ∃ n, size = n + 1 := ⟨size - 1, by have := hA.1; simp at this; omega⟩
  exact operator_det_eq_det _ n rfl

/-- C30: the determinant is multiplicative: for `A` and `B` of the same size,
`!(A * B) = (!A) * (!B)`. -/
theorem determinant_multiplicative (A B : SquareMat) (hA : A.WF) (hB : B.WF)
    (h : A.size = B.size) :
    ∃ R, A.operator_mul B = Except.ok R ∧
      R.operator_det = A.operator_det * B.operator_det := by
  obtain ⟨R, hR, hs, hwf, hm⟩ := operator_mul_toMatrix A B hA h
  refine ⟨R, hR, ?_⟩
  rw [operator_det_eq_det_size R hwf, operator_det_eq_det_size A hA,
    operator_det_eq_det_size B hB, hs, ← h, hm, Matrix.det_mul]

theorem determinant_multiplicative_witness :
    testM1.WF ∧ testM2.WF ∧ testM1.size = testM2.size ∧
    ∃ R, testM1.operator_mul testM2 = Except.ok R ∧
      R.operator_det = testM1.operator_det * testM2.operator_det :=
  ⟨by decide, by decide, by decide,
    determinant_multiplicative testM1 testM2 (by decide) (by decide) (by decide)⟩

/-! ## The determinant of the transpose and the order of the comparisons -/

/-- C31: the determinant is invariant under transpose: `!(~A) = !A`, although the
expansion always goes along the first row. -/
theorem determinant_of_transpose (A : SquareMat) (hA : A.WF) :
    ∃ T, A.operator_transpose = Except.ok T ∧ T.operator_det = A.operator_det := by
  obtain ⟨T, hT, hs, hwf, he⟩ := operator_transpose_spec A hA
  refine ⟨T, hT, ?_⟩
  rw [operator_det_eq_det_size T hwf, operator_det_eq_det_size A hA, hs]
  have : T.toMatrix A.size = (A.toMatrix A.size).transpose := by
    ext i j
    simp only [SquareMat.toMatrix, Matrix.of_apply, Matrix.transpose_apply]
    exact he i j i.2 j.2
  rw [this, Matrix.det_transpose]

theorem determinant_of_transpose_witness :
    testM3.WF ∧
    ∃ T, testM3.operator_transpose = Except.ok T ∧ T.operator_det = testM3.operator_det :=
  ⟨by decide, determinant_of_transpose testM3 (by decide)⟩

/-- C32: the comparison operators are mutually consistent and order the matrices by
their element sums: for matrices of any sizes each of the six returns a truth value;
exactly one of `A < B`, `A == B`, `A > B` is true; `A != B` is the negation of
`A == B`; `A <= B` is true exactly when `A < B` or `A == B` is; `A >= B` is true exactly
when `A > B` or `A == B` is; `A > B` is true exactly when `B < A` is; and `<=` is total,
reflexive and transitive. -/
theorem comparisons_form_total_preorder (A B C : SquareMat) :
    ∃ eq ne lt gt le ge lt' : Bool,
      A.operator_eq B = Except.ok eq ∧ A.operator_ne B = Except.ok ne ∧
      A.operator_lt B = Except.ok lt ∧ A.operator_gt B = Except.ok gt ∧
      A.operator_le B = Except.ok le ∧ A.operator_ge B = Except.ok ge ∧
      B.operator_lt A = Except.ok lt' ∧
      ((lt = true ∧ eq = false ∧ gt = false) ∨ (lt = false ∧ eq = true ∧ gt = false) ∨
        (lt = false ∧ eq = false ∧ gt = true)) ∧
      ne = !eq ∧ le = (lt || eq) ∧ ge = (gt || eq) ∧ gt = lt' ∧
      (le = true ∨ ge = true) ∧
      A.operator_le A = Except.ok true ∧
      (A.operator_le B = Except.ok true → B.operator_le C = Except.ok true →
        A.operator_le C = Except.ok true) := by
  have hle : ∀ X Y : SquareMat, X.operator_le Y = Except.ok true ↔ X.sum ≤ Y.sum := by
    intro X Y
    constructor
    · intro h
      have h' : decide (X.sum ≤ Y.sum) = true := Except.ok.inj h
      exact of_decide_eq_true h'
    · intro h
      show Except.ok (decide (X.sum ≤ Y.sum)) = Except.ok true
      rw [decide_eq_true h]
  have hrefl : A.operator_le A = Except.ok true := (hle A A).mpr (le_refl _)
  have htrans : A.operator_le B = Except.ok true → B.operator_le C = Except.ok true →
      A.operator_le C = Except.ok true := fun h1 h2 =>
    (hle A C).mpr (le_trans ((hle A B).mp h1) ((hle B C).mp h2))
  refine ⟨_, _, _, _, _, _, _, rfl, rfl, rfl, rfl, rfl, rfl, rfl, ?_⟩
  rcases lt_trichotomy A.sum B.sum with h | h | h
  · have h1 : ¬ A.sum = B.sum := ne_of_lt h
    have h2 : ¬ A.sum > B.sum := not_lt.mpr (le_of_lt h)
    have h3 : A.sum ≤ B.sum := le_of_lt h
    have h4 : ¬ A.sum ≥ B.sum := not_le.mpr h
    have h5 : ¬ B.sum < A.sum := h2
    refine ⟨?_, ?_, ?_, ?_, ?_, ?_, hrefl, htrans⟩ <;> simp [h, h1, h2, h3, h4, h5]
  · have h1 : ¬ A.sum < B.sum := by rw [h]; exact lt_irrefl _
    have h2 : ¬ A.sum > B.sum := by rw [h]; exact lt_irrefl _
    have h3 : A.sum ≤ B.sum := le_of_eq h
    have h4 : A.sum ≥ B.sum := ge_of_eq h
    have h5 : ¬ B.sum < A.sum := h2
    refine ⟨?_, ?_, ?_, ?_, ?_, ?_, hrefl, htrans⟩ <;> simp [h1, h2, h3, h4, h5, h]
  · have h1 : ¬ A.sum = B.sum := ne_of_gt h
    have h2 : ¬ A.sum < B.sum := not_lt.mpr (le_of_lt h)
    have h3 : ¬ A.sum ≤ B.sum := not_le.mpr h
    have h4 : A.sum ≥ B.sum := le_of_lt h
    have h5 : B.sum < A.sum := h
    have h6 : A.sum > B.sum := h
    refine ⟨?_, ?_, ?_, ?_, ?_, ?_, hrefl, htrans⟩ <;> simp [h1, h2, h3, h4, h5, h6]

theorem comparisons_form_total_preorder_witness :
    ∃ eq ne lt gt le ge lt' : Bool,
      testM1.operator_eq testZ3 = Except.ok eq ∧ testM1.operator_ne testZ3 = Except.ok ne ∧
      testM1.operator_lt testZ3 = Except.ok lt ∧ testM1.operator_gt testZ3 = Except.ok gt ∧
      testM1.operator_le testZ3 = Except.ok le ∧ testM1.operator_ge testZ3 = Except.ok ge ∧
      testZ3.operator_lt testM1 = Except.ok lt' ∧
      ((lt = true ∧ eq = false ∧ gt = false) ∨ (lt = false ∧ eq = true ∧ gt = false) ∨
        (lt = false ∧ eq = false ∧ gt = true)) ∧
      ne = !eq ∧ le = (lt || eq) ∧ ge = (gt || eq) ∧ gt = lt' ∧
      (le = true ∨ ge = true) ∧
      testM1.operator_le testM1 = Except.ok true ∧
      (testM1.operator_le testZ3 = Except.ok true → testZ3.operator_le testM2 = Except.ok true →
        testM1.operator_le testM2 = Except.ok true) :=
  comparisons_form_total_preorder testM1 testZ3 testM2

end matrix_ops
